import Mathlib

/-!
# Nanvix scheduler (`src/kernel/pm/sched.c`), priority aging variant

A shallow embedding of `sched`, `stop`, `resume`, `increasePriority`,
`decreasePriority` and `yield`, followed by the properties proved about them.

The process table is a list of process records; a `struct process *` is the
index of a slot of that list.  Every C function that writes through a pointer
becomes a function from kernel states to kernel states.
-/

namespace Nanvix

/-! ## Constants of `sched.c` -/

/-- Most favorable priority (`#define MAX_PRIORITY 0`). -/
def MAX_PRIORITY : Int := 0

/-- Least favorable priority (`#define MIN_PRIORITY 80`). -/
def MIN_PRIORITY : Int := 80

/-- Increment/decrement constant (`#define PRIORITY_MODIFIER 5`). -/
def PRIORITY_MODIFIER : Int := 5

/-! ## Declarations of `<nanvix/pm.h>`, `<nanvix/clock.h>` and `<signal.h>` -/

/-- Modelled from the spec: the process states of `<nanvix/pm.h>` (header absent).
The scheduler reads and writes `READY`, `RUNNING` and `STOPPED`; every other
life-cycle state is opaque to it and is kept as `OTHER code`. -/
inductive ProcState
  | READY
  | RUNNING
  | STOPPED
  | OTHER (code : Nat)
  deriving DecidableEq

/-- Modelled from the spec: the two signal kinds the scheduler sends
(`<signal.h>` absent): child-stopped notification and alarm expiry. -/
inductive Signal
  | SIGCHLD
  | SIGALRM
  deriving DecidableEq

/-- Modelled from the spec: the scheduling fields of `struct process`
(`<nanvix/pm.h>` absent).  `father` is a pointer, kept as a slot index;
`valid` is the value of the `IS_VALID` predicate for the slot (allocated or
free), which the process-management collaborator maintains. -/
structure Process where
  state : ProcState
  priority : Int
  counter : Int
  alarm : Nat
  father : Nat
  valid : Bool
  deriving DecidableEq

/-- What a read through a pointer outside the table yields in the model. -/
instance : Inhabited Process :=
  ⟨{ state := .OTHER 0, priority := 0, counter := 0, alarm := 0, father := 0, valid := false }⟩

/-- Modelled from the spec: the full quantum granted at dispatch (`PROC_QUANTUM`
of `<nanvix/pm.h>`, header absent).  No property below depends on its value. -/
def PROC_QUANTUM : Int := 50

/-- Kernel state the scheduler works on: the process table `proctab`, the
globals `curr_proc` and `last_proc`, the tick counter `ticks`, and the calls
made to the signal collaborator, oldest first. -/
structure Kernel where
  proctab : List Process
  curr_proc : Nat
  last_proc : Nat
  ticks : Nat
  signals : List (Nat × Signal)
  deriving DecidableEq

/-- Modelled from the spec: `IDLE` of `<nanvix/pm.h>` (header absent), the
designated sentinel slot.  It is slot 0 of `proctab` and lies outside the
scanned range `FIRST_PROC..LAST_PROC`. -/
def IDLE : Nat := 0

/-- Modelled from the spec: `FIRST_PROC` of `<nanvix/pm.h>` (header absent), the
first slot the scans traverse. -/
def FIRST_PROC : Nat := 1

/-- Modelled from the spec: `LAST_PROC` of `<nanvix/pm.h>` (header absent), the
last slot of the table. -/
def LAST_PROC (k : Kernel) : Nat := k.proctab.length - 1

/-- Read of `*p`. -/
def Kernel.deref (k : Kernel) (p : Nat) : Process := k.proctab.getD p default

/-- Write of `*p = v`. -/
def Kernel.store (k : Kernel) (p : Nat) (v : Process) : Kernel :=
  { k with proctab := k.proctab.set p v }

/-- Modelled from the spec: `IS_VALID(p)` of `<nanvix/pm.h>` (header absent), the
predicate distinguishing allocated from free slots. -/
def IS_VALID (k : Kernel) (p : Nat) : Bool := (k.deref p).valid

/-- Modelled from the spec: `sndsig(proc, sig)` of the signal collaborator
(absent): enqueues `sig` for `proc`, fire-and-forget. -/
def sndsig (k : Kernel) (proc : Nat) (sig : Signal) : Kernel :=
  { k with signals := k.signals ++ [(proc, sig)] }

/-- Modelled from the spec: `switch_to(next)` of the context-switch collaborator
(absent): control is transferred to `next`, which becomes the current process;
the call is taken to return immediately. -/
def switch_to (k : Kernel) (next : Nat) : Kernel :=
  { k with curr_proc := next }

/-! ## The functions of `sched.c` -/

/-- Body of `sched`:
`proc->state = PROC_READY; proc->counter = 0;` -/
def sched (k : Kernel) (proc : Nat) : Kernel :=
  k.store proc { k.deref proc with state := .READY, counter := 0 }

/-- Body of `resume`:
`if (proc->state == PROC_STOPPED) sched(proc);` -/
def resume (k : Kernel) (proc : Nat) : Kernel :=
  if (k.deref proc).state = .STOPPED then sched k proc else k

/-- Body of `increasePriority`:
`if (proc->priority + PRIORITY_MODIFIER > MAX_PRIORITY) proc->priority -= PRIORITY_MODIFIER;` -/
def increasePriority (k : Kernel) (proc : Nat) : Kernel :=
  if (k.deref proc).priority + PRIORITY_MODIFIER > MAX_PRIORITY then
    k.store proc { k.deref proc with priority := (k.deref proc).priority - PRIORITY_MODIFIER }
  else k

/-- Body of `decreasePriority`:
`if (proc->priority - PRIORITY_MODIFIER < MIN_PRIORITY) proc->priority += PRIORITY_MODIFIER;` -/
def decreasePriority (k : Kernel) (proc : Nat) : Kernel :=
  if (k.deref proc).priority - PRIORITY_MODIFIER < MIN_PRIORITY then
    k.store proc { k.deref proc with priority := (k.deref proc).priority + PRIORITY_MODIFIER }
  else k

/-- The slots visited by `for (p = FIRST_PROC; p <= LAST_PROC; p++)`, in order. -/
def procRange (k : Kernel) : List Nat :=
  List.range' FIRST_PROC (LAST_PROC k + 1 - FIRST_PROC)

/-- Lines 101-106 of `yield`: re-schedule the current process if it is
`RUNNING`, then remember it in `last_proc`. -/
def yieldEnqueue (k : Kernel) : Kernel :=
  let k1 := if (k.deref k.curr_proc).state = .RUNNING then sched k k.curr_proc else k
  { k1 with last_proc := k1.curr_proc }

/-- One iteration of the alarm loop of `yield` (lines 111-117). -/
def alarmBody (k : Kernel) (p : Nat) : Kernel :=
  if !IS_VALID k p then k
  else if (k.deref p).alarm ≠ 0 ∧ (k.deref p).alarm < k.ticks then
    sndsig (k.store p { k.deref p with alarm := 0 }) p .SIGALRM
  else k

/-- The alarm loop of `yield` (lines 109-118). -/
def yieldAlarms (k : Kernel) : Kernel :=
  (procRange k).foldl alarmBody k

/-- One iteration of the selection loop of `yield` (lines 124-143); the pair is
the kernel state and the local variable `next`. -/
def chooseBody (c : Kernel × Nat) (p : Nat) : Kernel × Nat :=
  if (c.1.deref p).state ≠ .READY then c
  else if (c.1.deref p).priority < (c.1.deref c.2).priority then
    (increasePriority c.1 c.2, p)
  else
    (increasePriority c.1 p, c.2)

/-- The selection loop of `yield` (lines 121-144), started with `next = IDLE`. -/
def yieldChoose (k : Kernel) : Kernel × Nat :=
  (procRange k).foldl chooseBody (k, IDLE)

/-- State of `yield` when the selection loop starts (after lines 101-118). -/
def yieldLoopStart (k : Kernel) : Kernel :=
  yieldAlarms (yieldEnqueue k)

/-- State of `yield` when the selection loop has finished (after line 144),
with the value of `next`. -/
def yieldSelected (k : Kernel) : Kernel × Nat :=
  yieldChoose (yieldLoopStart k)

/-- State of `yield` at the dispatch point: after
`next->state = PROC_RUNNING; next->counter = PROC_QUANTUM;` and just before
`switch_to(next)`; the second component is `next`. -/
def yieldDispatch (k : Kernel) : Kernel × Nat :=
  let c := yieldSelected k
  (c.1.store c.2 { c.1.deref c.2 with state := .RUNNING, counter := PROC_QUANTUM }, c.2)

/-- The whole of `yield`: dispatch, `switch_to(next)`, `decreasePriority(next)`. -/
def yield (k : Kernel) : Kernel :=
  let d := yieldDispatch k
  decreasePriority (switch_to d.1 d.2) d.2

/-- Lines 48-49 of `stop`:
`curr_proc->state = PROC_STOPPED; sndsig(curr_proc->father, SIGCHLD);` -/
def stopMark (k : Kernel) : Kernel :=
  let k1 := k.store k.curr_proc { k.deref k.curr_proc with state := .STOPPED }
  sndsig k1 (k1.deref k1.curr_proc).father .SIGCHLD

/-- The whole of `stop`: mark, notify the father, `yield()`. -/
def stop (k : Kernel) : Kernel :=
  yield (stopMark k)

/-! ## Vocabulary of the properties -/

/-- The calls to `sndsig` made between state `k` and the later state `k2`. -/
def sentBetween (k k2 : Kernel) : List (Nat × Signal) :=
  k2.signals.drop k.signals.length

/-- How many times signal `sig` for slot `p` occurs in a list of `sndsig` calls. -/
def timesSent (l : List (Nat × Signal)) (p : Nat) (sig : Signal) : Nat :=
  l.countP (fun s => decide (s = (p, sig)))

/-- Every slot of the table has its priority in `[MAX_PRIORITY, MIN_PRIORITY]`. -/
def PrioritiesInRange (k : Kernel) : Prop :=
  ∀ v ∈ k.proctab, MAX_PRIORITY ≤ v.priority ∧ v.priority ≤ MIN_PRIORITY

/-- The range predicate is checked slot by slot. -/
instance (k : Kernel) : Decidable (PrioritiesInRange k) := by
  unfold PrioritiesInRange
  infer_instance

/-- Alarm of slot `p` has expired: non-zero and strictly less than `ticks`. -/
def alarmExpired (k : Kernel) (p : Nat) : Bool :=
  IS_VALID k p && decide ((k.deref p).alarm ≠ 0) && decide ((k.deref p).alarm < k.ticks)

/-- The operations of the scheduler, as called by the rest of the kernel. -/
inductive Op
  | sched (proc : Nat)
  | resume (proc : Nat)
  | stop
  | yield
  deriving DecidableEq

/-- Effect of one operation. -/
def Op.run (k : Kernel) : Op → Kernel
  | .sched proc => Nanvix.sched k proc
  | .resume proc => Nanvix.resume k proc
  | .stop => Nanvix.stop k
  | .yield => Nanvix.yield k

/-- Effect of a finite sequence of operations, first to last. -/
def runOps (k : Kernel) (ops : List Op) : Kernel :=
  ops.foldl Op.run k

/-- A process record, for writing concrete tables: state, priority, alarm. -/
def mkProc (s : ProcState) (prio : Int) (alarm : Nat) : Process :=
  { state := s, priority := prio, counter := 0, alarm := alarm, father := 0, valid := true }

/-- A kernel state, for writing concrete tables: table, current process, ticks. -/
def mkKernel (tab : List Process) (curr : Nat) (ticks : Nat) : Kernel :=
  { proctab := tab, curr_proc := curr, last_proc := curr, ticks := ticks, signals := [] }

/-- Example table: IDLE was running; slots 1 and 2 are READY with priorities 10
and 20. -/
def tableLowFirst : Kernel :=
  mkKernel [mkProc .RUNNING 80 0, mkProc .READY 10 0, mkProc .READY 20 0] 0 0

/-- Example table: as `tableLowFirst` with the two READY processes swapped. -/
def tableLowLast : Kernel :=
  mkKernel [mkProc .RUNNING 80 0, mkProc .READY 20 0, mkProc .READY 10 0] 0 0

/-- Example table: IDLE was running and the only other slot is STOPPED. -/
def tableNoneReady : Kernel :=
  mkKernel [mkProc .RUNNING 80 0, mkProc .STOPPED 30 0] 0 0

/-- Example table: slot 1 is running; slot 2 is READY with an alarm set for tick 5;
the tick counter has advanced to 6. -/
def tableAlarm : Kernel :=
  mkKernel [mkProc .READY 80 0, mkProc .RUNNING 40 0, mkProc .READY 40 5] 1 6

/-- Example table: IDLE was running; slots 1 and 2 are READY, both at
MAX_PRIORITY. -/
def tableTwoAtMax : Kernel :=
  mkKernel [mkProc .RUNNING 80 0, mkProc .READY 0 0, mkProc .READY 0 0] 0 0

/-- Example table: slot 1 is running at MIN_PRIORITY. -/
def tableAtMin : Kernel :=
  mkKernel [mkProc .READY 80 0, mkProc .RUNNING 80 0] 1 0

/-- Modelled from the spec: the invariant of the process table that
`<nanvix/pm.h>` and the process-management collaborator maintain (both absent).
IDLE always exists and is a valid dispatch target, and a slot is either free or
holds one process: the spec treats a free slot as a state of its own beside
READY, RUNNING and STOPPED, so a slot that is not valid is not READY. -/
def TableWellFormed (k : Kernel) : Prop :=
  (k.deref IDLE).valid = true ∧ ∀ v ∈ k.proctab, v.valid = false → v.state ≠ .READY

/-- The table invariant is checked slot by slot. -/
instance (k : Kernel) : Decidable (TableWellFormed k) := by
  unfold TableWellFormed
  infer_instance

/-- Example table: IDLE was running; slot 1 is a free slot (not valid, state
`OTHER 0`) that still holds priority 10; slot 2 is READY with priority 20. -/
def tableFreeSlot : Kernel :=
  mkKernel [mkProc .RUNNING 80 0, { mkProc (.OTHER 0) 10 0 with valid := false },
    mkProc .READY 20 0] 0 0

/-- Example table: IDLE is valid, was running and has an alarm set for tick 5;
slot 1 is READY; the tick counter has advanced to 6. -/
def tableIdleAlarm : Kernel :=
  mkKernel [mkProc .RUNNING 80 5, mkProc .READY 40 0] 0 6

/-- Every slot of the table has its priority in `[lo, hi]`. -/
def PrioritiesWithin (lo hi : Int) (k : Kernel) : Prop :=
  ∀ v ∈ k.proctab, lo ≤ v.priority ∧ v.priority ≤ hi

/-- The bound is checked slot by slot. -/
instance (lo hi : Int) (k : Kernel) : Decidable (PrioritiesWithin lo hi k) := by
  unfold PrioritiesWithin
  infer_instance

/-- The slots of FIRST_PROC..LAST_PROC whose state is READY, in table order. -/
def readySlots (k : Kernel) : List Nat :=
  (procRange k).filter (fun i => decide ((k.deref i).state = .READY))

/-- The processes dispatched by `n` consecutive calls to `yield`, in order. -/
def dispatchTrace (k : Kernel) : Nat → List Nat
  | 0 => []
  | n + 1 => (yield k).curr_proc :: dispatchTrace (yield k) n

/-- Example table: IDLE was running at priority 80; slots 1..n are READY, all
with priority `prio`. -/
def tableEqual (n : Nat) (prio : Int) : Kernel :=
  mkKernel (mkProc .RUNNING 80 0 :: List.replicate n (mkProc .READY prio 0)) 0 0

/-- Example table: slot 1 has priority 1 and slot 2 has priority 79, both inside
[0, 80]. -/
def tableNearEnds : Kernel :=
  mkKernel [mkProc .RUNNING 80 0, mkProc .READY 1 0, mkProc .READY 79 0] 0 0

/-! ## Reads and writes of the table -/

theorem deref_store_same (k : Kernel) (p : Nat) (v : Process) (h : p < k.proctab.length) :
    (k.store p v).deref p = v := by
  simp [Kernel.deref, Kernel.store, List.getD_eq_getElem?_getD, List.getElem?_set, h]

theorem deref_store_other (k : Kernel) (p q : Nat) (v : Process) (h : p ≠ q) :
    (k.store p v).deref q = k.deref q := by
  simp [Kernel.deref, Kernel.store, List.getD_eq_getElem?_getD, List.getElem?_set, h]

theorem store_length (k : Kernel) (p : Nat) (v : Process) :
    (k.store p v).proctab.length = k.proctab.length := by
  simp [Kernel.store]

theorem deref_mem (k : Kernel) (p : Nat) (h : p < k.proctab.length) :
    k.deref p ∈ k.proctab := by
  simp only [Kernel.deref, List.getD_eq_getElem?_getD, List.getElem?_eq_getElem h, Option.getD_some]
  exact List.getElem_mem h

theorem prioritiesInRange_deref (k : Kernel) (hk : PrioritiesInRange k) (p : Nat)
    (h : p < k.proctab.length) :
    0 ≤ (k.deref p).priority ∧ (k.deref p).priority ≤ 80 :=
  hk _ (deref_mem k p h)

/-! ## `sched` and `resume` -/

/-- C9: `sched(proc)` sets the state of `proc` to READY and its counter to 0 and
changes nothing else: the priority, alarm, father and validity of `proc`, every
other slot, the table size, `curr_proc`, `last_proc`, `ticks` and the signals
sent are all unchanged (no selection is performed, no signal is sent). -/
theorem sched_frame (k : Kernel) (proc : Nat) (h : proc < k.proctab.length) :
    ((sched k proc).deref proc).state = .READY ∧
    ((sched k proc).deref proc).counter = 0 ∧
    ((sched k proc).deref proc).priority = (k.deref proc).priority ∧
    ((sched k proc).deref proc).alarm = (k.deref proc).alarm ∧
    ((sched k proc).deref proc).father = (k.deref proc).father ∧
    ((sched k proc).deref proc).valid = (k.deref proc).valid ∧
    (∀ q, q ≠ proc → (sched k proc).deref q = k.deref q) ∧
    (sched k proc).proctab.length = k.proctab.length ∧
    (sched k proc).curr_proc = k.curr_proc ∧
    (sched k proc).last_proc = k.last_proc ∧
    (sched k proc).ticks = k.ticks ∧
    (sched k proc).signals = k.signals := by
  have hs : (sched k proc).deref proc = { k.deref proc with state := .READY, counter := 0 } :=
    deref_store_same k proc _ h
  refine ⟨by rw [hs], by rw [hs], by rw [hs], by rw [hs], by rw [hs], by rw [hs], ?_,
    store_length k proc _, rfl, rfl, rfl, rfl⟩
  intro q hq
  exact deref_store_other k proc q _ (Ne.symm hq)

/-- Witness of C9 on a three-slot table: slot 2 is STOPPED with counter 7. -/
theorem sched_frame_witness :
    2 < (mkKernel [mkProc .READY 80 0, mkProc .RUNNING 40 0,
        { mkProc .STOPPED 30 9 with counter := 7 }] 1 0).proctab.length ∧
    ((sched (mkKernel [mkProc .READY 80 0, mkProc .RUNNING 40 0,
        { mkProc .STOPPED 30 9 with counter := 7 }] 1 0) 2).deref 2).state = .READY :=
  ⟨by decide, (sched_frame _ 2 (by decide)).1⟩

/-- C8: `resume(proc)` on a STOPPED process makes it READY with counter 0 (it is
exactly `sched(proc)`); on a process in any other state it returns the kernel
state unchanged; so the state of `proc` changes if and only if it was STOPPED. -/
theorem resume_spec (k : Kernel) (proc : Nat) (h : proc < k.proctab.length) :
    ((k.deref proc).state = .STOPPED →
      ((resume k proc).deref proc).state = .READY ∧
      ((resume k proc).deref proc).counter = 0 ∧
      resume k proc = sched k proc) ∧
    ((k.deref proc).state ≠ .STOPPED → resume k proc = k) ∧
    (((resume k proc).deref proc).state ≠ (k.deref proc).state ↔
      (k.deref proc).state = .STOPPED) := by
  have hs : (sched k proc).deref proc = { k.deref proc with state := .READY, counter := 0 } :=
    deref_store_same k proc _ h
  by_cases hst : (k.deref proc).state = .STOPPED
  · have hr : resume k proc = sched k proc := by simp [resume, hst]
    refine ⟨fun _ => ⟨by rw [hr, hs], by rw [hr, hs], hr⟩, fun hne => absurd hst hne, ?_⟩
    rw [hr, hs, hst]
    simp
  · have hr : resume k proc = k := by simp [resume, hst]
    refine ⟨fun heq => absurd heq hst, fun _ => hr, ?_⟩
    rw [hr]
    simp [hst]

/-- Witness of C8: resuming the STOPPED slot 2 of a three-slot table. -/
theorem resume_spec_witness :
    2 < (mkKernel [mkProc .READY 80 0, mkProc .RUNNING 40 0,
        { mkProc .STOPPED 30 9 with counter := 7 }] 1 0).proctab.length ∧
    ((resume (mkKernel [mkProc .READY 80 0, mkProc .RUNNING 40 0,
        { mkProc .STOPPED 30 9 with counter := 7 }] 1 0) 2).deref 2).state ≠
      ((mkKernel [mkProc .READY 80 0, mkProc .RUNNING 40 0,
        { mkProc .STOPPED 30 9 with counter := 7 }] 1 0).deref 2).state :=
  ⟨by decide, (resume_spec _ 2 (by decide)).2.2.mpr (by decide)⟩

/-! ## `increasePriority` on the table -/

theorem increasePriority_deref_other (k : Kernel) (p q : Nat) (h : p ≠ q) :
    (increasePriority k p).deref q = k.deref q := by
  unfold increasePriority
  split
  · exact deref_store_other k p q _ h
  · rfl

theorem increasePriority_length (k : Kernel) (p : Nat) :
    (increasePriority k p).proctab.length = k.proctab.length := by
  unfold increasePriority
  split
  · exact store_length k p _
  · rfl

theorem increasePriority_deref_self (k : Kernel) (p : Nat) (h : p < k.proctab.length) :
    (increasePriority k p).deref p =
      if (k.deref p).priority + PRIORITY_MODIFIER > MAX_PRIORITY then
        { k.deref p with priority := (k.deref p).priority - PRIORITY_MODIFIER }
      else k.deref p := by
  unfold increasePriority
  split
  · exact deref_store_same k p _ h
  · rfl

theorem increasePriority_congr (k k2 : Kernel) (p : Nat) (h : p < k.proctab.length)
    (h2 : p < k2.proctab.length) (he : k.deref p = k2.deref p) :
    (increasePriority k p).deref p = (increasePriority k2 p).deref p := by
  rw [increasePriority_deref_self k p h, increasePriority_deref_self k2 p h2, he]

theorem increasePriority_globals (k : Kernel) (p : Nat) :
    (increasePriority k p).curr_proc = k.curr_proc ∧
    (increasePriority k p).last_proc = k.last_proc ∧
    (increasePriority k p).ticks = k.ticks ∧
    (increasePriority k p).signals = k.signals := by
  unfold increasePriority
  split <;> exact ⟨rfl, rfl, rfl, rfl⟩

/-- What `increasePriority` leaves alone in the record it is applied to. -/
theorem increasePriority_fields (k : Kernel) (p q : Nat) :
    ((increasePriority k p).deref q).state = (k.deref q).state ∧
    ((increasePriority k p).deref q).counter = (k.deref q).counter ∧
    ((increasePriority k p).deref q).alarm = (k.deref q).alarm ∧
    ((increasePriority k p).deref q).father = (k.deref q).father ∧
    ((increasePriority k p).deref q).valid = (k.deref q).valid := by
  by_cases hpq : p = q
  · subst hpq
    by_cases hp : p < k.proctab.length
    · rw [increasePriority_deref_self k p hp]
      split <;> exact ⟨rfl, rfl, rfl, rfl, rfl⟩
    · have : increasePriority k p = k := by
        unfold increasePriority
        split
        · simp only [Kernel.store]
          rw [List.set_eq_of_length_le (by omega)]
        · rfl
      rw [this]
      exact ⟨rfl, rfl, rfl, rfl, rfl⟩
  · rw [increasePriority_deref_other k p q hpq]
    exact ⟨rfl, rfl, rfl, rfl, rfl⟩

/-! ## The selection loop -/

theorem chooseBody_skip (k : Kernel) (next p : Nat) (h : (k.deref p).state ≠ .READY) :
    chooseBody (k, next) p = (k, next) := by
  simp [chooseBody, h]

theorem chooseBody_take (k : Kernel) (next p : Nat) (h : (k.deref p).state = .READY)
    (hlt : (k.deref p).priority < (k.deref next).priority) :
    chooseBody (k, next) p = (increasePriority k next, p) := by
  simp [chooseBody, h, hlt]

theorem chooseBody_pass (k : Kernel) (next p : Nat) (h : (k.deref p).state = .READY)
    (hlt : ¬ (k.deref p).priority < (k.deref next).priority) :
    chooseBody (k, next) p = (increasePriority k p, next) := by
  simp [chooseBody, h, hlt]

/-- Effect of the selection loop on the table, for a traversal `l` without
repetition that does not contain the initial `next`. -/
theorem chooseLoop_table (l : List Nat) : ∀ (k : Kernel) (next : Nat) (r : Kernel × Nat),
    l.foldl chooseBody (k, next) = r →
    l.Nodup → next ∉ l → (∀ i ∈ l, i < k.proctab.length) → next < k.proctab.length →
    (r.2 = next ∨ r.2 ∈ l) ∧
    r.1.deref r.2 = k.deref r.2 ∧
    (∀ i, i ≠ r.2 → (i = next ∨ (i ∈ l ∧ (k.deref i).state = .READY)) →
      r.1.deref i = (increasePriority k i).deref i) ∧
    (∀ i, i ≠ next → ¬ (i ∈ l ∧ (k.deref i).state = .READY) → r.1.deref i = k.deref i) ∧
    r.1.proctab.length = k.proctab.length ∧
    r.1.curr_proc = k.curr_proc ∧ r.1.last_proc = k.last_proc ∧
    r.1.ticks = k.ticks ∧ r.1.signals = k.signals := by
  induction l with
  | nil =>
    intro k next r hr _ _ _ _
    simp only [List.foldl_nil] at hr
    subst hr
    refine ⟨Or.inl rfl, rfl, ?_, fun _ _ _ => rfl, rfl, rfl, rfl, rfl, rfl⟩
    intro i hi h
    rcases h with h | h
    · exact absurd h hi
    · exact absurd h.1 (List.not_mem_nil i)
  | cons p l ih =>
    intro k next r hr hnd hnext hb hnb
    rw [List.foldl_cons] at hr
    have hpl : p ∉ l := (List.nodup_cons.mp hnd).1
    have hndl : l.Nodup := (List.nodup_cons.mp hnd).2
    have hnp : next ≠ p := fun h => hnext (h ▸ List.mem_cons_self _ _)
    have hnl : next ∉ l := fun h => hnext (List.mem_cons_of_mem _ h)
    have hpb : p < k.proctab.length := hb p (List.mem_cons_self _ _)
    have hbl : ∀ i ∈ l, i < k.proctab.length := fun i hi => hb i (List.mem_cons_of_mem _ hi)
    by_cases hst : (k.deref p).state = .READY
    · by_cases hlt : (k.deref p).priority < (k.deref next).priority
      · -- the candidate becomes the tentative winner, the old one is favored
        rw [chooseBody_take k next p hst hlt] at hr
        have hlen := increasePriority_length k next
        obtain ⟨h1, h2, h3, h4, h5, h6, h7, h8, h9⟩ :=
          ih (increasePriority k next) p r hr hndl hpl
            (fun i hi => by rw [hlen]; exact hbl i hi) (by rw [hlen]; exact hpb)
        have hg := increasePriority_globals k next
        have hrn : r.2 ≠ next := by
          rcases h1 with h | h
          · rw [h]; exact Ne.symm hnp
          · exact fun he => hnl (he ▸ h)
        refine ⟨?_, ?_, ?_, ?_, by rw [h5, hlen], by rw [h6, hg.1], by rw [h7, hg.2.1],
          by rw [h8, hg.2.2.1], by rw [h9, hg.2.2.2]⟩
        · rcases h1 with h | h
          · exact Or.inr (h ▸ List.mem_cons_self _ _)
          · exact Or.inr (List.mem_cons_of_mem _ h)
        · rw [h2, increasePriority_deref_other k next r.2 (Ne.symm hrn)]
        · intro i hi h
          rcases h with h | ⟨hmem, hready⟩
          · subst h
            rw [h4 i hnp (fun hh => hnl hh.1)]
          · have hin : i ≠ next := fun he => hnext (he ▸ hmem)
            have hib : i < k.proctab.length := hb i hmem
            have hd : (increasePriority k next).deref i = k.deref i :=
              increasePriority_deref_other k next i (Ne.symm hin)
            have hgoal : r.1.deref i = (increasePriority (increasePriority k next) i).deref i := by
              apply h3 i hi
              rcases List.mem_cons.mp hmem with h | h
              · exact Or.inl h
              · exact Or.inr ⟨h, by rw [hd]; exact hready⟩
            rw [hgoal]
            exact increasePriority_congr _ _ i (by rw [hlen]; exact hib) hib hd
        · intro i hi h
          have hip : i ≠ p := fun he => h ⟨he ▸ List.mem_cons_self _ _, he ▸ hst⟩
          have hd : (increasePriority k next).deref i = k.deref i :=
            increasePriority_deref_other k next i (Ne.symm hi)
          rw [h4 i hip (fun hh => h ⟨List.mem_cons_of_mem _ hh.1, by rw [← hd]; exact hh.2⟩), hd]
      · -- the candidate is passed over and favored
        rw [chooseBody_pass k next p hst hlt] at hr
        have hlen := increasePriority_length k p
        obtain ⟨h1, h2, h3, h4, h5, h6, h7, h8, h9⟩ :=
          ih (increasePriority k p) next r hr hndl hnl
            (fun i hi => by rw [hlen]; exact hbl i hi) (by rw [hlen]; exact hnb)
        have hg := increasePriority_globals k p
        have hrp : r.2 ≠ p := by
          rcases h1 with h | h
          · rw [h]; exact hnp
          · exact fun he => hpl (he ▸ h)
        refine ⟨?_, ?_, ?_, ?_, by rw [h5, hlen], by rw [h6, hg.1], by rw [h7, hg.2.1],
          by rw [h8, hg.2.2.1], by rw [h9, hg.2.2.2]⟩
        · rcases h1 with h | h
          · exact Or.inl h
          · exact Or.inr (List.mem_cons_of_mem _ h)
        · rw [h2, increasePriority_deref_other k p r.2 (Ne.symm hrp)]
        · intro i hi h
          by_cases hip : i = p
          · subst hip
            rw [h4 i (Ne.symm hnp) (fun hh => hpl hh.1)]
          · have hd : (increasePriority k p).deref i = k.deref i :=
              increasePriority_deref_other k p i (Ne.symm hip)
            have hib : i < k.proctab.length := by
              rcases h with h | h
              · rw [h]; exact hnb
              · exact hb i h.1
            have hgoal : r.1.deref i = (increasePriority (increasePriority k p) i).deref i := by
              apply h3 i hi
              rcases h with h | ⟨hmem, hready⟩
              · exact Or.inl h
              · rcases List.mem_cons.mp hmem with h | h
                · exact absurd h hip
                · exact Or.inr ⟨h, by rw [hd]; exact hready⟩
            rw [hgoal]
            exact increasePriority_congr _ _ i (by rw [hlen]; exact hib) hib hd
        · intro i hi h
          have hip : i ≠ p := fun he => h ⟨he ▸ List.mem_cons_self _ _, he ▸ hst⟩
          have hd : (increasePriority k p).deref i = k.deref i :=
            increasePriority_deref_other k p i (Ne.symm hip)
          rw [h4 i hi (fun hh => h ⟨List.mem_cons_of_mem _ hh.1, by rw [← hd]; exact hh.2⟩), hd]
    · -- not READY: skipped
      rw [chooseBody_skip k next p hst] at hr
      obtain ⟨h1, h2, h3, h4, h5, h6, h7, h8, h9⟩ := ih k next r hr hndl hnl hbl hnb
      refine ⟨?_, h2, ?_, ?_, h5, h6, h7, h8, h9⟩
      · rcases h1 with h | h
        · exact Or.inl h
        · exact Or.inr (List.mem_cons_of_mem _ h)
      · intro i hi h
        apply h3 i hi
        rcases h with h | ⟨hmem, hready⟩
        · exact Or.inl h
        · rcases List.mem_cons.mp hmem with h | h
          · exact absurd (h ▸ hready) hst
          · exact Or.inr ⟨h, hready⟩
      · intro i hi h
        exact h4 i hi (fun hh => h ⟨List.mem_cons_of_mem _ hh.1, hh.2⟩)

/-- Which slot the selection loop ends with, for an increasing traversal `l`
that does not contain the initial `next`. -/
theorem chooseLoop_winner (l : List Nat) : ∀ (k : Kernel) (next : Nat) (r : Kernel × Nat),
    l.foldl chooseBody (k, next) = r →
    l.Pairwise (· < ·) → next ∉ l →
    (r.2 = next ∨ r.2 ∈ l) ∧
    (k.deref r.2).priority ≤ (k.deref next).priority ∧
    (∀ i ∈ l, (k.deref i).state = .READY → (k.deref r.2).priority ≤ (k.deref i).priority) ∧
    (r.2 ≠ next → (k.deref r.2).state = .READY ∧
      (k.deref r.2).priority < (k.deref next).priority ∧
      ∀ i ∈ l, i < r.2 → (k.deref i).state = .READY →
        (k.deref r.2).priority < (k.deref i).priority) := by
  induction l with
  | nil =>
    intro k next r hr _ _
    simp only [List.foldl_nil] at hr
    subst hr
    exact ⟨Or.inl rfl, le_refl _, fun i hi => absurd hi (List.not_mem_nil i),
      fun h => absurd rfl h⟩
  | cons p l ih =>
    intro k next r hr hpw hnext
    rw [List.foldl_cons] at hr
    have hpl : ∀ a ∈ l, p < a := (List.pairwise_cons.mp hpw).1
    have hpwl : l.Pairwise (· < ·) := (List.pairwise_cons.mp hpw).2
    have hpnl : p ∉ l := fun h => lt_irrefl p (hpl p h)
    have hnp : next ≠ p := fun h => hnext (h ▸ List.mem_cons_self _ _)
    have hnl : next ∉ l := fun h => hnext (List.mem_cons_of_mem _ h)
    by_cases hst : (k.deref p).state = .READY
    · by_cases hlt : (k.deref p).priority < (k.deref next).priority
      · rw [chooseBody_take k next p hst hlt] at hr
        obtain ⟨h1, h2, h3, h4⟩ := ih (increasePriority k next) p r hr hpwl hpnl
        have hd : ∀ j, j ≠ next → (increasePriority k next).deref j = k.deref j :=
          fun j hj => increasePriority_deref_other k next j (Ne.symm hj)
        have hrn : r.2 ≠ next := by
          rcases h1 with h | h
          · rw [h]; exact Ne.symm hnp
          · exact fun he => hnl (he ▸ h)
        have hil : ∀ i ∈ l, i ≠ next := fun i hi he => hnl (he ▸ hi)
        rw [hd r.2 hrn, hd p (Ne.symm hnp)] at h2
        have hmem : r.2 ∈ p :: l := by
          rcases h1 with h | h
          · exact h ▸ List.mem_cons_self _ _
          · exact List.mem_cons_of_mem _ h
        refine ⟨Or.inr hmem, le_of_lt (lt_of_le_of_lt h2 hlt), ?_, fun _ => ⟨?_, lt_of_le_of_lt h2 hlt, ?_⟩⟩
        · intro i hi hready
          rcases List.mem_cons.mp hi with h | h
          · rw [h]; exact h2
          · have := h3 i h (by rw [hd i (hil i h)]; exact hready)
            rwa [hd r.2 hrn, hd i (hil i h)] at this
        · by_cases hrp : r.2 = p
          · rw [hrp]; exact hst
          · have := (h4 hrp).1
            rwa [hd r.2 hrn] at this
        · intro i hi hir hready
          by_cases hrp : r.2 = p
          · exfalso
            rw [hrp] at hir
            rcases List.mem_cons.mp hi with h | h
            · omega
            · have := hpl i h
              omega
          · obtain ⟨_, h42, h43⟩ := h4 hrp
            rcases List.mem_cons.mp hi with h | h
            · rw [hd r.2 hrn, hd p (Ne.symm hnp)] at h42
              rw [h]; exact h42
            · have := h43 i h hir (by rw [hd i (hil i h)]; exact hready)
              rwa [hd r.2 hrn, hd i (hil i h)] at this
      · rw [chooseBody_pass k next p hst hlt] at hr
        obtain ⟨h1, h2, h3, h4⟩ := ih (increasePriority k p) next r hr hpwl hnl
        have hd : ∀ j, j ≠ p → (increasePriority k p).deref j = k.deref j :=
          fun j hj => increasePriority_deref_other k p j (Ne.symm hj)
        have hrp : r.2 ≠ p := by
          rcases h1 with h | h
          · rw [h]; exact hnp
          · exact fun he => hpnl (he ▸ h)
        have hil : ∀ i ∈ l, i ≠ p := fun i hi he => hpnl (he ▸ hi)
        rw [hd r.2 hrp, hd next hnp] at h2
        have hle : (k.deref next).priority ≤ (k.deref p).priority := not_lt.mp hlt
        refine ⟨?_, h2, ?_, fun hrn => ?_⟩
        · rcases h1 with h | h
          · exact Or.inl h
          · exact Or.inr (List.mem_cons_of_mem _ h)
        · intro i hi hready
          rcases List.mem_cons.mp hi with h | h
          · rw [h]; exact le_trans h2 hle
          · have := h3 i h (by rw [hd i (hil i h)]; exact hready)
            rwa [hd r.2 hrp, hd i (hil i h)] at this
        · obtain ⟨h41, h42, h43⟩ := h4 hrn
          rw [hd r.2 hrp] at h41
          rw [hd r.2 hrp, hd next hnp] at h42
          refine ⟨h41, h42, ?_⟩
          intro i hi hir hready
          rcases List.mem_cons.mp hi with h | h
          · rw [h]; exact lt_of_lt_of_le h42 hle
          · have := h43 i h hir (by rw [hd i (hil i h)]; exact hready)
            rwa [hd r.2 hrp, hd i (hil i h)] at this
    · rw [chooseBody_skip k next p hst] at hr
      obtain ⟨h1, h2, h3, h4⟩ := ih k next r hr hpwl hnl
      refine ⟨?_, h2, ?_, fun hrn => ?_⟩
      · rcases h1 with h | h
        · exact Or.inl h
        · exact Or.inr (List.mem_cons_of_mem _ h)
      · intro i hi hready
        rcases List.mem_cons.mp hi with h | h
        · exact absurd (h ▸ hready) hst
        · exact h3 i h hready
      · obtain ⟨h41, h42, h43⟩ := h4 hrn
        refine ⟨h41, h42, ?_⟩
        intro i hi hir hready
        rcases List.mem_cons.mp hi with h | h
        · exact absurd (h ▸ hready) hst
        · exact h43 i h hir hready

/-! ## The scanned range -/

theorem mem_procRange (k : Kernel) (i : Nat) :
    i ∈ procRange k ↔ FIRST_PROC ≤ i ∧ i < k.proctab.length := by
  simp only [procRange, LAST_PROC, FIRST_PROC, List.mem_range'_1]
  omega

theorem procRange_pairwise (k : Kernel) : (procRange k).Pairwise (· < ·) := by
  simp only [procRange]
  exact List.pairwise_lt_range' _ _

theorem procRange_nodup (k : Kernel) : (procRange k).Nodup := by
  simp only [procRange]
  exact List.nodup_range' _ _

theorem idle_not_mem_procRange (k : Kernel) : IDLE ∉ procRange k := by
  rw [mem_procRange]
  simp [IDLE, FIRST_PROC]

theorem procRange_congr (k k2 : Kernel) (h : k2.proctab.length = k.proctab.length) :
    procRange k2 = procRange k := by
  simp [procRange, LAST_PROC, h]

theorem procRange_bound (k : Kernel) : ∀ i ∈ procRange k, i < k.proctab.length :=
  fun i hi => ((mem_procRange k i).mp hi).2

/-! ## Fields the selection loop never writes -/

theorem chooseLoop_fields (l : List Nat) : ∀ (k : Kernel) (next : Nat) (q : Nat),
    ((l.foldl chooseBody (k, next)).1.deref q).state = (k.deref q).state ∧
    ((l.foldl chooseBody (k, next)).1.deref q).counter = (k.deref q).counter ∧
    ((l.foldl chooseBody (k, next)).1.deref q).alarm = (k.deref q).alarm ∧
    ((l.foldl chooseBody (k, next)).1.deref q).father = (k.deref q).father ∧
    ((l.foldl chooseBody (k, next)).1.deref q).valid = (k.deref q).valid := by
  induction l with
  | nil => intro k next q; exact ⟨rfl, rfl, rfl, rfl, rfl⟩
  | cons p l ih =>
    intro k next q
    rw [List.foldl_cons]
    by_cases hst : (k.deref p).state = .READY
    · by_cases hlt : (k.deref p).priority < (k.deref next).priority
      · rw [chooseBody_take k next p hst hlt]
        obtain ⟨a1, a2, a3, a4, a5⟩ := ih (increasePriority k next) p q
        obtain ⟨b1, b2, b3, b4, b5⟩ := increasePriority_fields k next q
        exact ⟨a1.trans b1, a2.trans b2, a3.trans b3, a4.trans b4, a5.trans b5⟩
      · rw [chooseBody_pass k next p hst hlt]
        obtain ⟨a1, a2, a3, a4, a5⟩ := ih (increasePriority k p) next q
        obtain ⟨b1, b2, b3, b4, b5⟩ := increasePriority_fields k p q
        exact ⟨a1.trans b1, a2.trans b2, a3.trans b3, a4.trans b4, a5.trans b5⟩
    · rw [chooseBody_skip k next p hst]
      exact ih k next q

/-! ## The alarm loop -/

theorem alarmBody_expired (k : Kernel) (p : Nat) (h : alarmExpired k p = true) :
    alarmBody k p = sndsig (k.store p { k.deref p with alarm := 0 }) p .SIGALRM := by
  simp only [alarmExpired, Bool.and_eq_true, decide_eq_true_eq] at h
  simp [alarmBody, h.1.1, h.1.2, h.2]

theorem alarmBody_idle (k : Kernel) (p : Nat) (h : alarmExpired k p = false) :
    alarmBody k p = k := by
  unfold alarmBody
  split
  · rfl
  · rename_i hv
    split
    · rename_i ha
      exfalso
      simp only [Bool.not_eq_true, Bool.not_eq_true', Bool.not_eq_false] at hv
      simp [alarmExpired, hv, ha.1, ha.2] at h
    · rfl

theorem alarmExpired_congr (k k2 : Kernel) (p : Nat) (hd : k2.deref p = k.deref p)
    (ht : k2.ticks = k.ticks) : alarmExpired k2 p = alarmExpired k p := by
  simp [alarmExpired, IS_VALID, hd, ht]

/-- Effect of the alarm loop, for a traversal `l` without repetition. -/
theorem alarmLoop_spec (l : List Nat) : ∀ (k r : Kernel),
    l.foldl alarmBody k = r → l.Nodup → (∀ i ∈ l, i < k.proctab.length) →
    r.signals = k.signals ++ (l.filter (alarmExpired k)).map (fun i => (i, Signal.SIGALRM)) ∧
    (∀ i ∈ l, alarmExpired k i = true → r.deref i = { k.deref i with alarm := 0 }) ∧
    (∀ i, ¬ (i ∈ l ∧ alarmExpired k i = true) → r.deref i = k.deref i) ∧
    r.proctab.length = k.proctab.length ∧
    r.curr_proc = k.curr_proc ∧ r.last_proc = k.last_proc ∧ r.ticks = k.ticks := by
  induction l with
  | nil =>
    intro k r hr _ _
    simp only [List.foldl_nil] at hr
    subst hr
    simp
  | cons p l ih =>
    intro k r hr hnd hb
    rw [List.foldl_cons] at hr
    have hpl : p ∉ l := (List.nodup_cons.mp hnd).1
    have hndl : l.Nodup := (List.nodup_cons.mp hnd).2
    have hpb : p < k.proctab.length := hb p (List.mem_cons_self _ _)
    have hbl : ∀ i ∈ l, i < k.proctab.length := fun i hi => hb i (List.mem_cons_of_mem _ hi)
    cases hexp : alarmExpired k p with
    | true =>
      rw [alarmBody_expired k p hexp] at hr
      have hd : ∀ j, j ≠ p →
          (sndsig (k.store p { k.deref p with alarm := 0 }) p .SIGALRM).deref j = k.deref j :=
        fun j hj => deref_store_other k p j _ (Ne.symm hj)
      have hdp : (sndsig (k.store p { k.deref p with alarm := 0 }) p .SIGALRM).deref p =
          { k.deref p with alarm := 0 } := deref_store_same k p _ hpb
      have hlen : (sndsig (k.store p { k.deref p with alarm := 0 }) p .SIGALRM).proctab.length =
          k.proctab.length := store_length k p _
      obtain ⟨h1, h2, h3, h4, h5, h6, h7⟩ := ih _ r hr hndl (fun i hi => by rw [hlen]; exact hbl i hi)
      have hfil : l.filter (alarmExpired
            (sndsig (k.store p { k.deref p with alarm := 0 }) p .SIGALRM)) =
          l.filter (alarmExpired k) := by
        apply List.filter_congr
        intro i hi
        exact alarmExpired_congr k _ i (hd i (fun he => hpl (he ▸ hi))) rfl
      refine ⟨?_, ?_, ?_, by rw [h4, hlen], h5, h6, h7⟩
      · rw [h1, hfil, List.filter_cons_of_pos hexp]
        simp [sndsig, Kernel.store]
      · intro i hi hie
        rcases List.mem_cons.mp hi with h | h
        · subst h
          rw [h3 i (fun hh => hpl hh.1), hdp]
        · have hip : i ≠ p := fun he => hpl (he ▸ h)
          rw [h2 i h (by rw [alarmExpired_congr k _ i (hd i hip) rfl]; exact hie), hd i hip]
      · intro i hi
        have hip : i ≠ p := fun he => hi ⟨he ▸ List.mem_cons_self _ _, he ▸ hexp⟩
        rw [h3 i (fun hh => hi ⟨List.mem_cons_of_mem _ hh.1,
          by rw [← alarmExpired_congr k _ i (hd i hip) rfl]; exact hh.2⟩), hd i hip]
    | false =>
      rw [alarmBody_idle k p hexp] at hr
      obtain ⟨h1, h2, h3, h4, h5, h6, h7⟩ := ih k r hr hndl hbl
      refine ⟨?_, ?_, ?_, h4, h5, h6, h7⟩
      · rw [h1, List.filter_cons_of_neg (by simp [hexp])]
      · intro i hi hie
        rcases List.mem_cons.mp hi with h | h
        · rw [h, hexp] at hie
          exact absurd hie (by simp)
        · exact h2 i h hie
      · intro i hi
        exact h3 i (fun hh => hi ⟨List.mem_cons_of_mem _ hh.1, hh.2⟩)

/-! ## The stages of `yield` -/

theorem deref_store (k : Kernel) (p q : Nat) (v : Process) :
    (k.store p v).deref q = if p = q ∧ p < k.proctab.length then v else k.deref q := by
  by_cases h : p = q
  · subst h
    by_cases hp : p < k.proctab.length
    · simp [hp, deref_store_same k p v hp]
    · simp [hp, Kernel.deref, Kernel.store, List.getD_eq_getElem?_getD, List.getElem?_set,
        List.getElem?_eq_none (not_lt.mp hp)]
  · simp [h, deref_store_other k p q v h]

/-- Effect of lines 101-106 of `yield`. -/
theorem yieldEnqueue_spec (k : Kernel) :
    (yieldEnqueue k).proctab.length = k.proctab.length ∧
    (yieldEnqueue k).curr_proc = k.curr_proc ∧
    (yieldEnqueue k).ticks = k.ticks ∧
    (yieldEnqueue k).signals = k.signals ∧
    (∀ q, ((yieldEnqueue k).deref q).priority = (k.deref q).priority ∧
      ((yieldEnqueue k).deref q).alarm = (k.deref q).alarm ∧
      ((yieldEnqueue k).deref q).father = (k.deref q).father ∧
      ((yieldEnqueue k).deref q).valid = (k.deref q).valid) ∧
    (∀ q, (k.deref q).state ≠ .RUNNING → (yieldEnqueue k).deref q = k.deref q) ∧
    (∀ q, q ≠ k.curr_proc → (yieldEnqueue k).deref q = k.deref q) ∧
    ((yieldEnqueue k).deref k.curr_proc).state ≠ .RUNNING := by
  by_cases hrun : (k.deref k.curr_proc).state = .RUNNING
  · have he : yieldEnqueue k = { sched k k.curr_proc with last_proc := k.curr_proc } := by
      simp [yieldEnqueue, hrun, sched, Kernel.store]
    have hd : ∀ q, (yieldEnqueue k).deref q =
        if k.curr_proc = q ∧ k.curr_proc < k.proctab.length then
          { k.deref k.curr_proc with state := .READY, counter := 0 } else k.deref q := by
      intro q
      rw [he]
      exact deref_store k k.curr_proc q _
    refine ⟨by rw [he]; exact store_length k _ _, by rw [he]; rfl, by rw [he]; rfl,
      by rw [he]; rfl, ?_, ?_, ?_, ?_⟩
    · intro q
      rw [hd q]
      split
      · rename_i h
        rw [← h.1]
        exact ⟨rfl, rfl, rfl, rfl⟩
      · exact ⟨rfl, rfl, rfl, rfl⟩
    · intro q hq
      rw [hd q]
      split
      · rename_i h
        rw [← h.1] at hq
        exact absurd hrun hq
      · rfl
    · intro q hq
      rw [hd q]
      split
      · rename_i h
        exact absurd h.1.symm hq
      · rfl
    · rw [hd]
      split
      · simp
      · rename_i h
        have hb : ¬ k.curr_proc < k.proctab.length := fun hh => h ⟨rfl, hh⟩
        simp [Kernel.deref, List.getD_eq_getElem?_getD, List.getElem?_eq_none (not_lt.mp hb)]
  · have he : yieldEnqueue k = { k with last_proc := k.curr_proc } := by
      simp [yieldEnqueue, hrun]
    rw [he]
    exact ⟨rfl, rfl, rfl, rfl, fun q => ⟨rfl, rfl, rfl, rfl⟩, fun q _ => rfl, fun q _ => rfl, hrun⟩

/-- Effect of lines 101-118 of `yield`: the state in which the selection loop starts. -/
theorem yieldLoopStart_spec (k : Kernel) :
    (yieldLoopStart k).proctab.length = k.proctab.length ∧
    (yieldLoopStart k).curr_proc = k.curr_proc ∧
    (yieldLoopStart k).ticks = k.ticks ∧
    (yieldLoopStart k).signals = k.signals ++
      ((procRange k).filter (alarmExpired k)).map (fun i => (i, Signal.SIGALRM)) ∧
    (∀ q, ((yieldLoopStart k).deref q).state = ((yieldEnqueue k).deref q).state ∧
      ((yieldLoopStart k).deref q).priority = (k.deref q).priority ∧
      ((yieldLoopStart k).deref q).counter = ((yieldEnqueue k).deref q).counter ∧
      ((yieldLoopStart k).deref q).father = (k.deref q).father ∧
      ((yieldLoopStart k).deref q).valid = (k.deref q).valid) ∧
    (∀ q ∈ procRange k, alarmExpired k q = true → ((yieldLoopStart k).deref q).alarm = 0) ∧
    (∀ q, ¬ (q ∈ procRange k ∧ alarmExpired k q = true) →
      ((yieldLoopStart k).deref q).alarm = (k.deref q).alarm) := by
  obtain ⟨e1, e2, e3, e4, e5, e6, e7, e8⟩ := yieldEnqueue_spec k
  have hrange : procRange (yieldEnqueue k) = procRange k := procRange_congr k _ e1
  have hexp : ∀ q, alarmExpired (yieldEnqueue k) q = alarmExpired k q := by
    intro q
    simp [alarmExpired, IS_VALID, (e5 q).2.1, (e5 q).2.2.2, e3]
  obtain ⟨a1, a2, a3, a4, a5, a6, a7⟩ :=
    alarmLoop_spec (procRange (yieldEnqueue k)) (yieldEnqueue k) (yieldLoopStart k) rfl
      (procRange_nodup _) (procRange_bound _)
  have hfil : (procRange (yieldEnqueue k)).filter (alarmExpired (yieldEnqueue k)) =
      (procRange k).filter (alarmExpired k) := by
    rw [hrange]
    exact List.filter_congr (fun i _ => hexp i)
  have hcase : ∀ q, (yieldLoopStart k).deref q = { (yieldEnqueue k).deref q with alarm := 0 } ∨
      (yieldLoopStart k).deref q = (yieldEnqueue k).deref q := by
    intro q
    by_cases h : q ∈ procRange (yieldEnqueue k) ∧ alarmExpired (yieldEnqueue k) q = true
    · exact Or.inl (a2 q h.1 h.2)
    · exact Or.inr (a3 q h)
  refine ⟨by rw [a4, e1], by rw [a5, e2], by rw [a7, e3], by rw [a1, e4, hfil], ?_, ?_, ?_⟩
  · intro q
    rcases hcase q with h | h <;> rw [h]
    · exact ⟨rfl, (e5 q).1, rfl, (e5 q).2.2.1, (e5 q).2.2.2⟩
    · exact ⟨rfl, (e5 q).1, rfl, (e5 q).2.2.1, (e5 q).2.2.2⟩
  · intro q hq hqe
    rw [a2 q (by rw [hrange]; exact hq) (by rw [hexp]; exact hqe)]
  · intro q hq
    rw [a3 q (by rw [hrange, hexp]; exact hq)]
    exact (e5 q).2.1

theorem store_fields_of_eq (k : Kernel) (p q : Nat) (v : Process)
    (h1 : v.alarm = (k.deref p).alarm) (h2 : v.father = (k.deref p).father)
    (h3 : v.valid = (k.deref p).valid) :
    ((k.store p v).deref q).alarm = (k.deref q).alarm ∧
    ((k.store p v).deref q).father = (k.deref q).father ∧
    ((k.store p v).deref q).valid = (k.deref q).valid := by
  rw [deref_store]
  split
  · rename_i h
    rw [← h.1]
    exact ⟨h1, h2, h3⟩
  · exact ⟨rfl, rfl, rfl⟩

theorem decreasePriority_deref_other (k : Kernel) (p q : Nat) (h : p ≠ q) :
    (decreasePriority k p).deref q = k.deref q := by
  unfold decreasePriority
  split
  · exact deref_store_other k p q _ h
  · rfl

theorem decreasePriority_length (k : Kernel) (p : Nat) :
    (decreasePriority k p).proctab.length = k.proctab.length := by
  unfold decreasePriority
  split
  · exact store_length k p _
  · rfl

theorem decreasePriority_globals (k : Kernel) (p : Nat) :
    (decreasePriority k p).curr_proc = k.curr_proc ∧
    (decreasePriority k p).last_proc = k.last_proc ∧
    (decreasePriority k p).ticks = k.ticks ∧
    (decreasePriority k p).signals = k.signals := by
  unfold decreasePriority
  split <;> exact ⟨rfl, rfl, rfl, rfl⟩

/-- What `decreasePriority` leaves alone in every record. -/
theorem decreasePriority_fields (k : Kernel) (p q : Nat) :
    ((decreasePriority k p).deref q).state = (k.deref q).state ∧
    ((decreasePriority k p).deref q).counter = (k.deref q).counter ∧
    ((decreasePriority k p).deref q).alarm = (k.deref q).alarm ∧
    ((decreasePriority k p).deref q).father = (k.deref q).father ∧
    ((decreasePriority k p).deref q).valid = (k.deref q).valid := by
  unfold decreasePriority
  split
  · rw [deref_store]
    split
    · rename_i h
      rw [← h.1]
      exact ⟨rfl, rfl, rfl, rfl, rfl⟩
    · exact ⟨rfl, rfl, rfl, rfl, rfl⟩
  · exact ⟨rfl, rfl, rfl, rfl, rfl⟩

/-- Effect of the selection loop of `yield` on everything but priorities. -/
theorem yieldSelected_frame (k : Kernel) :
    (yieldSelected k).1.proctab.length = k.proctab.length ∧
    (yieldSelected k).1.curr_proc = k.curr_proc ∧
    (yieldSelected k).1.ticks = k.ticks ∧
    (yieldSelected k).1.signals = (yieldLoopStart k).signals ∧
    ((yieldSelected k).2 = IDLE ∨
      (FIRST_PROC ≤ (yieldSelected k).2 ∧ (yieldSelected k).2 < k.proctab.length)) ∧
    (∀ q, ((yieldSelected k).1.deref q).state = ((yieldLoopStart k).deref q).state ∧
      ((yieldSelected k).1.deref q).counter = ((yieldLoopStart k).deref q).counter ∧
      ((yieldSelected k).1.deref q).alarm = ((yieldLoopStart k).deref q).alarm ∧
      ((yieldSelected k).1.deref q).father = ((yieldLoopStart k).deref q).father ∧
      ((yieldSelected k).1.deref q).valid = ((yieldLoopStart k).deref q).valid) := by
  obtain ⟨s1, s2, s3, _⟩ := yieldLoopStart_spec k
  have hfields := chooseLoop_fields (procRange (yieldLoopStart k)) (yieldLoopStart k) IDLE
  have hmem := (chooseLoop_winner (procRange (yieldLoopStart k)) (yieldLoopStart k) IDLE
    (yieldSelected k) rfl (procRange_pairwise _) (idle_not_mem_procRange _)).1
  have hglob : ∀ (l : List Nat) (c : Kernel × Nat),
      (l.foldl chooseBody c).1.proctab.length = c.1.proctab.length ∧
      (l.foldl chooseBody c).1.curr_proc = c.1.curr_proc ∧
      (l.foldl chooseBody c).1.ticks = c.1.ticks ∧
      (l.foldl chooseBody c).1.signals = c.1.signals := by
    intro l
    induction l with
    | nil => intro c; exact ⟨rfl, rfl, rfl, rfl⟩
    | cons p l ih =>
      intro c
      rw [List.foldl_cons]
      obtain ⟨a1, a2, a3, a4⟩ := ih (chooseBody c p)
      have hb : (chooseBody c p).1.proctab.length = c.1.proctab.length ∧
          (chooseBody c p).1.curr_proc = c.1.curr_proc ∧
          (chooseBody c p).1.ticks = c.1.ticks ∧
          (chooseBody c p).1.signals = c.1.signals := by
        unfold chooseBody
        split
        · exact ⟨rfl, rfl, rfl, rfl⟩
        · split
          · exact ⟨increasePriority_length _ _, (increasePriority_globals _ _).1,
              (increasePriority_globals _ _).2.2.1, (increasePriority_globals _ _).2.2.2⟩
          · exact ⟨increasePriority_length _ _, (increasePriority_globals _ _).1,
              (increasePriority_globals _ _).2.2.1, (increasePriority_globals _ _).2.2.2⟩
      exact ⟨a1.trans hb.1, a2.trans hb.2.1, a3.trans hb.2.2.1, a4.trans hb.2.2.2⟩
  obtain ⟨g1, g2, g3, g4⟩ := hglob (procRange (yieldLoopStart k)) (yieldLoopStart k, IDLE)
  refine ⟨g1.trans s1, g2.trans s2, g3.trans s3, g4, ?_, hfields⟩
  rcases hmem with h | h
  · exact Or.inl h
  · have := (mem_procRange _ _).mp h
    rw [s1] at this
    exact Or.inr this

/-- Effect of a whole `yield` on everything but states, counters and priorities. -/
theorem yield_frame (k : Kernel) :
    (yield k).proctab.length = k.proctab.length ∧
    (yield k).curr_proc = (yieldDispatch k).2 ∧
    (yield k).ticks = k.ticks ∧
    (yield k).signals = (yieldLoopStart k).signals ∧
    (yieldDispatch k).1.signals = (yieldLoopStart k).signals ∧
    (yieldDispatch k).1.proctab.length = k.proctab.length ∧
    (∀ q, ((yield k).deref q).alarm = ((yieldLoopStart k).deref q).alarm ∧
      ((yield k).deref q).valid = (k.deref q).valid ∧
      ((yield k).deref q).state = ((yieldDispatch k).1.deref q).state) := by
  obtain ⟨f1, f2, f3, f4, _, f6⟩ := yieldSelected_frame k
  obtain ⟨_, _, _, _, s5, _, _⟩ := yieldLoopStart_spec k
  have hy : yield k = decreasePriority (switch_to (yieldDispatch k).1 (yieldDispatch k).2)
      (yieldDispatch k).2 := rfl
  have hdd : (yieldDispatch k).1 = (yieldSelected k).1.store (yieldSelected k).2
      { (yieldSelected k).1.deref (yieldSelected k).2 with
        state := .RUNNING, counter := PROC_QUANTUM } := rfl
  obtain ⟨d1, _, d3, d4⟩ := decreasePriority_globals
    (switch_to (yieldDispatch k).1 (yieldDispatch k).2) (yieldDispatch k).2
  have hlen : (yieldDispatch k).1.proctab.length = k.proctab.length := by
    rw [hdd, store_length]; exact f1
  refine ⟨?_, by rw [hy, d1]; rfl, ?_, ?_, ?_, hlen, ?_⟩
  · rw [hy, decreasePriority_length]; exact hlen
  · rw [hy, d3]; show (yieldDispatch k).1.ticks = k.ticks; rw [hdd]; exact f3
  · rw [hy, d4]; show (yieldDispatch k).1.signals = _; rw [hdd]; exact f4
  · rw [hdd]; exact f4
  · intro q
    obtain ⟨p1, _, p3, _, p5⟩ := decreasePriority_fields
      (switch_to (yieldDispatch k).1 (yieldDispatch k).2) (yieldDispatch k).2 q
    have hsw : (switch_to (yieldDispatch k).1 (yieldDispatch k).2).deref q =
        (yieldDispatch k).1.deref q := rfl
    obtain ⟨t1, _, t3⟩ := store_fields_of_eq (yieldSelected k).1 (yieldSelected k).2 q
      { (yieldSelected k).1.deref (yieldSelected k).2 with
        state := .RUNNING, counter := PROC_QUANTUM } rfl rfl rfl
    rw [hy, p1, p3, p5, hsw]
    refine ⟨?_, ?_, rfl⟩
    · rw [hdd, t1]; exact (f6 q).2.2.1
    · rw [hdd, t3, (f6 q).2.2.2.2]; exact (s5 q).2.2.2.2

/-! ## Candidate selection -/

/-- C2: winner of candidate selection.  With `s` the state in which the selection
loop of `yield` starts (current process re-enqueued, alarms swept) and `w` the
process handed to `switch_to`: if some READY slot of FIRST_PROC..LAST_PROC has a
priority strictly smaller than IDLE, then `w` is a READY slot of that range
whose priority is the smallest among the READY slots, and the lowest slot index
among those with that priority; otherwise `w` is IDLE. -/
theorem yield_winner (k s : Kernel) (w : Nat)
    (hs : yieldLoopStart k = s) (hw : (yieldDispatch k).2 = w) :
    ((∃ i, FIRST_PROC ≤ i ∧ i < k.proctab.length ∧ (s.deref i).state = .READY ∧
        (s.deref i).priority < (s.deref IDLE).priority) →
      FIRST_PROC ≤ w ∧ w < k.proctab.length ∧ (s.deref w).state = .READY ∧
      ∀ i, FIRST_PROC ≤ i → i < k.proctab.length → (s.deref i).state = .READY →
        (s.deref w).priority ≤ (s.deref i).priority ∧
        ((s.deref i).priority = (s.deref w).priority → w ≤ i)) ∧
    ((¬ ∃ i, FIRST_PROC ≤ i ∧ i < k.proctab.length ∧ (s.deref i).state = .READY ∧
        (s.deref i).priority < (s.deref IDLE).priority) → w = IDLE) ∧
    (yield k).curr_proc = w := by
  subst hs
  have hlen : (yieldLoopStart k).proctab.length = k.proctab.length := (yieldLoopStart_spec k).1
  have hwr : (yieldSelected k).2 = w := hw
  obtain ⟨h1, h2, h3, h4⟩ := chooseLoop_winner (procRange (yieldLoopStart k)) (yieldLoopStart k)
    IDLE (yieldSelected k) rfl (procRange_pairwise _) (idle_not_mem_procRange _)
  rw [hwr] at h1 h2 h3 h4
  have hmem : ∀ i, i ∈ procRange (yieldLoopStart k) ↔ FIRST_PROC ≤ i ∧ i < k.proctab.length := by
    intro i
    rw [mem_procRange, hlen]
  refine ⟨?_, ?_, ?_⟩
  · rintro ⟨i, hi1, hi2, hi3, hi4⟩
    have hwi : w ≠ IDLE := by
      intro he
      have := h3 i ((hmem i).mpr ⟨hi1, hi2⟩) hi3
      rw [he] at this
      omega
    obtain ⟨h41, _, h43⟩ := h4 hwi
    have hwm : FIRST_PROC ≤ w ∧ w < k.proctab.length := by
      rcases h1 with h | h
      · exact absurd h hwi
      · exact (hmem w).mp h
    refine ⟨hwm.1, hwm.2, h41, ?_⟩
    intro j hj1 hj2 hj3
    refine ⟨h3 j ((hmem j).mpr ⟨hj1, hj2⟩) hj3, ?_⟩
    intro heq
    by_contra hlt
    have := h43 j ((hmem j).mpr ⟨hj1, hj2⟩) (not_le.mp hlt) hj3
    omega
  · intro hno
    by_contra hwi
    obtain ⟨h41, h42, _⟩ := h4 hwi
    have hwm : FIRST_PROC ≤ w ∧ w < k.proctab.length := by
      rcases h1 with h | h
      · exact absurd h hwi
      · exact (hmem w).mp h
    exact hno ⟨w, hwm.1, hwm.2, h41, h42⟩
  · rw [(yield_frame k).2.1]
    exact hw

/-- Witness of C2: priorities 20 and 10 in slots 1 and 2; slot 2 is dispatched. -/
theorem yield_winner_witness :
    (∃ i, FIRST_PROC ≤ i ∧ i < tableLowLast.proctab.length ∧
      ((yieldLoopStart tableLowLast).deref i).state = .READY ∧
      ((yieldLoopStart tableLowLast).deref i).priority <
        ((yieldLoopStart tableLowLast).deref IDLE).priority) ∧
    (yield tableLowLast).curr_proc = 2 ∧
    ((yieldLoopStart tableLowLast).deref 2).state = .READY :=
  ⟨⟨2, by decide, by decide, by decide, by decide⟩,
    (yield_winner tableLowLast _ 2 rfl (by decide)).2.2,
    ((yield_winner tableLowLast _ 2 rfl (by decide)).1
      ⟨2, by decide, by decide, by decide, by decide⟩).2.2.1⟩

/-- C3: single RUNNING process.  If no slot other than the current process is
RUNNING when `yield` is entered, then at the dispatch point (state `d`, just
before `switch_to(w)`) a slot is RUNNING if and only if it is the selected
winner `w`, the winner is a slot of the table, and its counter is PROC_QUANTUM;
in particular at most one slot is RUNNING. -/
theorem yield_single_running (k d : Kernel) (w : Nat)
    (hd : yieldDispatch k = (d, w))
    (hidle : IDLE < k.proctab.length)
    (hrun : ∀ i, i < k.proctab.length → i ≠ k.curr_proc → (k.deref i).state ≠ .RUNNING) :
    w < k.proctab.length ∧
    d.proctab.length = k.proctab.length ∧
    (∀ i, i < k.proctab.length → ((d.deref i).state = .RUNNING ↔ i = w)) ∧
    (d.deref w).counter = PROC_QUANTUM ∧
    (∀ i j, i < k.proctab.length → j < k.proctab.length →
      (d.deref i).state = .RUNNING → (d.deref j).state = .RUNNING → i = j) := by
  obtain ⟨f1, _, _, _, f5, f6⟩ := yieldSelected_frame k
  obtain ⟨_, _, _, _, s5, _, _⟩ := yieldLoopStart_spec k
  obtain ⟨_, _, _, _, _, e6, e7, e8⟩ := yieldEnqueue_spec k
  have hw : (yieldSelected k).2 = w := congrArg Prod.snd hd
  have hdd : d = (yieldSelected k).1.store w
      { (yieldSelected k).1.deref w with state := .RUNNING, counter := PROC_QUANTUM } := by
    rw [← hw]
    exact (congrArg Prod.fst hd).symm
  rw [hw] at f5
  have hwb : w < k.proctab.length := by
    rcases f5 with h | h
    · rw [h]; exact hidle
    · exact h.2
  have hwb2 : w < (yieldSelected k).1.proctab.length := by rw [f1]; exact hwb
  have hnr : ∀ i, i < k.proctab.length → ((yieldSelected k).1.deref i).state ≠ .RUNNING := by
    intro i hi
    rw [(f6 i).1, (s5 i).1]
    by_cases hic : i = k.curr_proc
    · rw [hic]; exact e8
    · rw [e7 i hic]; exact hrun i hi hic
  have hiff : ∀ i, i < k.proctab.length → ((d.deref i).state = .RUNNING ↔ i = w) := by
    intro i hi
    rw [hdd, deref_store]
    constructor
    · intro h
      by_contra hne
      rw [if_neg (fun hh => hne hh.1.symm)] at h
      exact hnr i hi h
    · intro h
      rw [if_pos ⟨h.symm, hwb2⟩]
  refine ⟨hwb, by rw [hdd, store_length]; exact f1, hiff, ?_, ?_⟩
  · rw [hdd, deref_store_same _ _ _ hwb2]
  · intro i j hi hj h1 h2
    rw [(hiff i hi).mp h1, (hiff j hj).mp h2]

/-- Witness of C3 on the table with READY priorities 10 and 20. -/
theorem yield_single_running_witness :
    (∀ i, i < tableLowFirst.proctab.length → i ≠ tableLowFirst.curr_proc →
      (tableLowFirst.deref i).state ≠ .RUNNING) ∧
    ((yieldDispatch tableLowFirst).1.deref 1).state = .RUNNING :=
  ⟨by decide,
    ((yield_single_running tableLowFirst (yieldDispatch tableLowFirst).1 1 (by decide)
      (by decide) (by decide)).2.2.1 1 (by decide)).mpr rfl⟩

/-! ## Aging of the processes passed over -/

/-- C4: passed-over processes are aged exactly once.  For a table whose
priorities lie in [0, 80], with `s` the state in which the selection loop
starts and `r` the state and winner when it finishes: every slot of
FIRST_PROC..LAST_PROC that was READY in `s` and is not the winner holds the
record that one call of `increasePriority` produces from its record in `s`, with
a priority exactly 5 lower; the record of the winner is the one it had in `s`. -/
theorem yield_passed_over_favored (k s : Kernel) (r : Kernel × Nat)
    (hs : yieldLoopStart k = s) (hr : yieldSelected k = r) (hk : PrioritiesInRange k) :
    (∀ i, FIRST_PROC ≤ i → i < k.proctab.length → (s.deref i).state = .READY → i ≠ r.2 →
      r.1.deref i = (increasePriority s i).deref i ∧
      (r.1.deref i).priority = (s.deref i).priority - PRIORITY_MODIFIER) ∧
    r.1.deref r.2 = s.deref r.2 := by
  subst hs
  obtain ⟨s1, _, _, _, s5, _, _⟩ := yieldLoopStart_spec k
  have hmem : ∀ i, i ∈ procRange (yieldLoopStart k) ↔ FIRST_PROC ≤ i ∧ i < k.proctab.length := by
    intro i
    rw [mem_procRange, s1]
  by_cases h0 : IDLE < k.proctab.length
  · obtain ⟨_, t2, t3, _⟩ := chooseLoop_table (procRange (yieldLoopStart k)) (yieldLoopStart k)
      IDLE r hr (procRange_nodup _) (idle_not_mem_procRange _) (procRange_bound _)
      (by rw [s1]; exact h0)
    refine ⟨?_, t2⟩
    intro i hi1 hi2 hready hne
    have hrec := t3 i hne (Or.inr ⟨(hmem i).mpr ⟨hi1, hi2⟩, hready⟩)
    refine ⟨hrec, ?_⟩
    have hp := (prioritiesInRange_deref k hk i hi2).1
    rw [← (s5 i).2.1] at hp
    rw [hrec, increasePriority_deref_self _ i (by rw [s1]; exact hi2)]
    have hguard : ((yieldLoopStart k).deref i).priority + PRIORITY_MODIFIER > MAX_PRIORITY := by
      simp only [PRIORITY_MODIFIER, MAX_PRIORITY]
      omega
    rw [if_pos hguard]
  · have hnil : procRange (yieldLoopStart k) = [] := by
      apply List.eq_nil_iff_forall_not_mem.mpr
      intro i hi
      have := (hmem i).mp hi
      simp only [IDLE] at h0
      omega
    have hr2 : r = (yieldLoopStart k, IDLE) := by
      rw [← hr]
      simp [yieldSelected, yieldChoose, hnil]
    rw [hr2]
    refine ⟨?_, rfl⟩
    intro i _ hi2
    simp only [IDLE] at h0
    omega

/-- Witness of C4, the example of the spec: READY processes of priorities 10 and
20, in either table order; the priority-10 process is selected and the other
one ends the selection with priority 15. -/
theorem yield_passed_over_favored_witness :
    (PrioritiesInRange tableLowFirst ∧ (yieldSelected tableLowFirst).2 = 1 ∧
      ((yieldSelected tableLowFirst).1.deref 2).priority = 20 - PRIORITY_MODIFIER) ∧
    (PrioritiesInRange tableLowLast ∧ (yieldSelected tableLowLast).2 = 2 ∧
      ((yieldSelected tableLowLast).1.deref 1).priority = 20 - PRIORITY_MODIFIER) :=
  ⟨⟨by decide, by decide,
      ((yield_passed_over_favored tableLowFirst _ _ rfl rfl (by decide)).1 2
        (by decide) (by decide) (by decide) (by decide)).2⟩,
    ⟨by decide, by decide,
      ((yield_passed_over_favored tableLowLast _ _ rfl rfl (by decide)).1 1
        (by decide) (by decide) (by decide) (by decide)).2⟩⟩

/-! ## IDLE fallback -/

theorem chooseLoop_none_ready (l : List Nat) (k : Kernel) (next : Nat)
    (h : ∀ i ∈ l, (k.deref i).state ≠ .READY) :
    l.foldl chooseBody (k, next) = (k, next) := by
  induction l with
  | nil => rfl
  | cons p l ih =>
    rw [List.foldl_cons, chooseBody_skip k next p (h p (List.mem_cons_self _ _))]
    exact ih (fun i hi => h i (List.mem_cons_of_mem _ hi))

/-- C5: IDLE fallback.  If, once the running process has been re-enqueued, no
slot of FIRST_PROC..LAST_PROC is READY, then the selection loop ends in the
state it started in with `next = IDLE` (so no priority is changed), and `yield`
dispatches IDLE. -/
theorem yield_idle_fallback (k : Kernel)
    (h : ∀ i, FIRST_PROC ≤ i → i < k.proctab.length →
      ((yieldEnqueue k).deref i).state ≠ .READY) :
    yieldSelected k = (yieldLoopStart k, IDLE) ∧
    (yieldDispatch k).2 = IDLE ∧
    (yield k).curr_proc = IDLE ∧
    (∀ q, ((yieldSelected k).1.deref q).priority = ((yieldLoopStart k).deref q).priority) ∧
    (∀ q, ((yieldDispatch k).1.deref q).priority = (k.deref q).priority) := by
  obtain ⟨s1, _, _, _, s5, _, _⟩ := yieldLoopStart_spec k
  have hsel : yieldSelected k = (yieldLoopStart k, IDLE) := by
    apply chooseLoop_none_ready
    intro i hi
    have hm := (mem_procRange _ _).mp hi
    rw [s1] at hm
    rw [(s5 i).1]
    exact h i hm.1 hm.2
  have hdisp : (yieldDispatch k).2 = IDLE := by
    show (yieldSelected k).2 = IDLE
    rw [hsel]
  refine ⟨hsel, hdisp, by rw [(yield_frame k).2.1]; exact hdisp, fun q => by rw [hsel], ?_⟩
  intro q
  have hdd : (yieldDispatch k).1 = (yieldSelected k).1.store (yieldSelected k).2
      { (yieldSelected k).1.deref (yieldSelected k).2 with
        state := .RUNNING, counter := PROC_QUANTUM } := rfl
  rw [hdd, deref_store]
  split
  · rename_i hq
    rw [← hq.1, hsel]
    exact (s5 _).2.1
  · rw [hsel]
    exact (s5 q).2.1

/-- Witness of C5: IDLE was running and the only other slot is STOPPED. -/
theorem yield_idle_fallback_witness :
    (∀ i, FIRST_PROC ≤ i → i < tableNoneReady.proctab.length →
      ((yieldEnqueue tableNoneReady).deref i).state ≠ .READY) ∧
    (yieldDispatch tableNoneReady).2 = IDLE :=
  ⟨by decide, (yield_idle_fallback tableNoneReady (by decide)).2.1⟩

/-! ## The alarm sweep of `yield` -/

theorem yieldDispatch_fst (k : Kernel) :
    (yieldDispatch k).1 = (yieldSelected k).1.store (yieldSelected k).2
      { (yieldSelected k).1.deref (yieldSelected k).2 with
        state := .RUNNING, counter := PROC_QUANTUM } := rfl

theorem sentBetween_append (k k2 : Kernel) (l : List (Nat × Signal))
    (h : k2.signals = k.signals ++ l) : sentBetween k k2 = l := by
  simp [sentBetween, h]

theorem timesSent_eq_zero (l : List (Nat × Signal)) (p : Nat) (sig : Signal)
    (ha : (p, sig) ∉ l) : timesSent l p sig = 0 := by
  unfold timesSent
  apply List.countP_eq_zero.mpr
  intro s hs
  simp only [decide_eq_true_eq]
  intro he
  exact ha (he ▸ hs)

theorem timesSent_eq_one (l : List (Nat × Signal)) (p : Nat) (sig : Signal) (hn : l.Nodup)
    (ha : (p, sig) ∈ l) : timesSent l p sig = 1 := by
  induction l with
  | nil => cases ha
  | cons x l ih =>
    have hxl : x ∉ l := (List.nodup_cons.mp hn).1
    have hnl : l.Nodup := (List.nodup_cons.mp hn).2
    by_cases hx : x = (p, sig)
    · have h0 := timesSent_eq_zero l p sig (hx ▸ hxl)
      unfold timesSent at h0 ⊢
      rw [List.countP_cons_of_pos _ _ (by simp [hx]), h0]
    · have hmem : (p, sig) ∈ l := by
        rcases List.mem_cons.mp ha with h | h
        · exact absurd h.symm hx
        · exact h
      have h1 := ih hnl hmem
      unfold timesSent at h1 ⊢
      rw [List.countP_cons_of_neg _ _ (by simp [hx]), h1]

theorem with_ticks_frame (k : Kernel) (t : Nat) :
    ({ k with ticks := t } : Kernel).signals = k.signals ∧
    ∀ q, ({ k with ticks := t } : Kernel).deref q = k.deref q :=
  ⟨rfl, fun _ => rfl⟩

theorem sentBetween_yield (k : Kernel) :
    sentBetween k (yield k) =
      ((procRange k).filter (alarmExpired k)).map (fun i => (i, Signal.SIGALRM)) := by
  obtain ⟨_, _, _, y4, _⟩ := yield_frame k
  obtain ⟨_, _, _, s4, _⟩ := yieldLoopStart_spec k
  exact sentBetween_append k _ _ (y4.trans s4)

theorem mem_alarm_signals (l : List Nat) (f : Nat → Bool) (i : Nat) :
    (i, Signal.SIGALRM) ∈ (l.filter f).map (fun i => (i, Signal.SIGALRM)) ↔
      i ∈ l ∧ f i = true := by
  simp [List.mem_map, List.mem_filter]

theorem nodup_alarm_signals (l : List Nat) (f : Nat → Bool) (h : l.Nodup) :
    ((l.filter f).map (fun i => (i, Signal.SIGALRM))).Nodup := by
  apply List.Nodup.map
  · intro a b hab
    exact (Prod.mk.inj hab).1
  · exact h.filter _

/-- C6, counterexample: IDLE is valid and its alarm, 5, is non-zero and
strictly less than `ticks`, 6; the sweep runs over FIRST_PROC..LAST_PROC only, so
one call of `yield` sends IDLE no SIGALRM (it sends no signal at all) and leaves
the alarm of IDLE at 5. -/
theorem alarm_sweep_skips_idle :
    IS_VALID tableIdleAlarm IDLE = true ∧
    (tableIdleAlarm.deref IDLE).alarm = 5 ∧
    tableIdleAlarm.ticks = 6 ∧
    timesSent (sentBetween tableIdleAlarm (yield tableIdleAlarm)) IDLE Signal.SIGALRM = 0 ∧
    sentBetween tableIdleAlarm (yield tableIdleAlarm) = [] ∧
    ((yield tableIdleAlarm).deref IDLE).alarm = 5 := by
  decide

/-- C6, amended: alarm sweep over FIRST_PROC..LAST_PROC.  The signals one call of
`yield` sends are exactly one SIGALRM for each slot of FIRST_PROC..LAST_PROC
that is valid and whose alarm is non-zero and strictly less than `ticks`, in
increasing slot order.  Such a slot has alarm 0 afterwards, and a second
`yield`, at any later tick value `t2` and with no re-arming in between, sends
it no SIGALRM.  A slot whose alarm is 0 or is at least `ticks` is sent no
SIGALRM and keeps its alarm; so do IDLE, which is not swept, and every slot
that is not valid, whatever their alarms. -/
theorem yield_alarm_sweep (k : Kernel) (t2 : Nat) :
    sentBetween k (yield k) =
      ((procRange k).filter (alarmExpired k)).map (fun i => (i, Signal.SIGALRM)) ∧
    ((sentBetween k (yield k)).map Prod.fst).Pairwise (· < ·) ∧
    (∀ i, FIRST_PROC ≤ i → i < k.proctab.length → IS_VALID k i = true →
      (k.deref i).alarm ≠ 0 → (k.deref i).alarm < k.ticks →
      timesSent (sentBetween k (yield k)) i Signal.SIGALRM = 1 ∧
      ((yield k).deref i).alarm = 0 ∧
      timesSent (sentBetween (yield k) (yield { yield k with ticks := t2 })) i
        Signal.SIGALRM = 0) ∧
    (∀ i, (k.deref i).alarm = 0 ∨ k.ticks ≤ (k.deref i).alarm →
      timesSent (sentBetween k (yield k)) i Signal.SIGALRM = 0 ∧
      ((yield k).deref i).alarm = (k.deref i).alarm) ∧
    (∀ i, i = IDLE ∨ IS_VALID k i = false →
      timesSent (sentBetween k (yield k)) i Signal.SIGALRM = 0 ∧
      ((yield k).deref i).alarm = (k.deref i).alarm) := by
  obtain ⟨_, _, _, _, _, _, y7⟩ := yield_frame k
  obtain ⟨_, _, _, _, _, s6, s7⟩ := yieldLoopStart_spec k
  refine ⟨sentBetween_yield k, ?_, ?_, ?_, ?_⟩
  · rw [sentBetween_yield k, List.map_map]
    have hid : (Prod.fst ∘ fun i : Nat => (i, Signal.SIGALRM)) = id := rfl
    rw [hid, List.map_id]
    exact (procRange_pairwise k).filter _
  · intro i hi1 hi2 hv ha ht
    have hexp : alarmExpired k i = true := by
      simp [alarmExpired, hv, ha, ht]
    have hmem : i ∈ procRange k := (mem_procRange k i).mpr ⟨hi1, hi2⟩
    have halarm : ((yield k).deref i).alarm = 0 := by
      rw [(y7 i).1]
      exact s6 i hmem hexp
    refine ⟨?_, halarm, ?_⟩
    · rw [sentBetween_yield k]
      exact timesSent_eq_one _ i Signal.SIGALRM (nodup_alarm_signals _ _ (procRange_nodup k))
        ((mem_alarm_signals _ _ i).mpr ⟨hmem, hexp⟩)
    · obtain ⟨w1, w2⟩ := with_ticks_frame (yield k) t2
      have hsame : sentBetween (yield k) (yield { yield k with ticks := t2 }) =
          sentBetween { yield k with ticks := t2 } (yield { yield k with ticks := t2 }) := by
        simp only [sentBetween, w1]
      rw [hsame, sentBetween_yield]
      apply timesSent_eq_zero
      intro hin
      have hexp2 := ((mem_alarm_signals _ _ i).mp hin).2
      simp [alarmExpired, w2 i, halarm] at hexp2
  · intro i hi
    have hexp : alarmExpired k i = false := by
      rcases hi with h | h
      · simp [alarmExpired, h]
      · simp [alarmExpired, not_lt.mpr h]
    refine ⟨?_, ?_⟩
    · rw [sentBetween_yield k]
      apply timesSent_eq_zero
      intro hin
      have := ((mem_alarm_signals _ _ i).mp hin).2
      rw [hexp] at this
      exact absurd this (by simp)
    · rw [(y7 i).1]
      exact s7 i (fun hh => by rw [hexp] at hh; exact absurd hh.2 (by simp))
  · intro i hi
    have hnot : ¬ (i ∈ procRange k ∧ alarmExpired k i = true) := by
      rintro ⟨hm, he⟩
      rcases hi with h | h
      · exact idle_not_mem_procRange k (h ▸ hm)
      · simp [alarmExpired, h] at he
    refine ⟨?_, ?_⟩
    · rw [sentBetween_yield k]
      apply timesSent_eq_zero
      intro hin
      exact hnot ((mem_alarm_signals _ _ i).mp hin)
    · rw [(y7 i).1]
      exact s7 i hnot

/-! ## `stop` -/

/-- C7: `stop()` with a current process that is a slot of the table other than
IDLE.  After lines 48-49 the current process is STOPPED and one signal has been
sent, SIGCHLD to its father.  Over the whole of `stop` the SIGCHLD signals sent
are that single one.  The `yield` that follows selects another slot, and the
stopped process is still STOPPED at the dispatch point and when `stop` ends. -/
theorem stop_spec (k : Kernel) (hc : k.curr_proc ≠ IDLE) (hb : k.curr_proc < k.proctab.length) :
    ((stopMark k).deref k.curr_proc).state = .STOPPED ∧
    (stopMark k).signals = k.signals ++ [((k.deref k.curr_proc).father, Signal.SIGCHLD)] ∧
    (sentBetween k (stop k)).filter (fun s => decide (s.2 = Signal.SIGCHLD)) =
      [((k.deref k.curr_proc).father, Signal.SIGCHLD)] ∧
    (yieldDispatch (stopMark k)).2 ≠ k.curr_proc ∧
    ((yieldEnqueue (stopMark k)).deref k.curr_proc).state = .STOPPED ∧
    ((yieldDispatch (stopMark k)).1.deref k.curr_proc).state = .STOPPED ∧
    ((stop k).deref k.curr_proc).state = .STOPPED := by
  have hmd : (stopMark k).deref k.curr_proc = { k.deref k.curr_proc with state := .STOPPED } :=
    deref_store_same k k.curr_proc _ hb
  have hmc : (stopMark k).curr_proc = k.curr_proc := rfl
  have hms : (stopMark k).signals = k.signals ++ [((k.deref k.curr_proc).father, Signal.SIGCHLD)] := by
    simp only [stopMark, sndsig, Kernel.store, Kernel.deref, List.getD_eq_getElem?_getD,
      List.getElem?_set, hb, if_true, Option.getD_some]
  have hst : ((stopMark k).deref k.curr_proc).state = .STOPPED := by rw [hmd]
  obtain ⟨_, _, _, _, _, e6, _, _⟩ := yieldEnqueue_spec (stopMark k)
  obtain ⟨_, _, _, s4, s5, _, _⟩ := yieldLoopStart_spec (stopMark k)
  obtain ⟨_, _, _, _, _, f6⟩ := yieldSelected_frame (stopMark k)
  obtain ⟨_, _, _, y4, _, _, y7⟩ := yield_frame (stopMark k)
  have henq : (yieldEnqueue (stopMark k)).deref k.curr_proc = (stopMark k).deref k.curr_proc :=
    e6 k.curr_proc (by rw [hst]; decide)
  have hls : ((yieldLoopStart (stopMark k)).deref k.curr_proc).state = .STOPPED := by
    rw [(s5 _).1, henq, hst]
  obtain ⟨w1, _, _, w4⟩ := chooseLoop_winner (procRange (yieldLoopStart (stopMark k)))
    (yieldLoopStart (stopMark k)) IDLE (yieldSelected (stopMark k)) rfl
    (procRange_pairwise _) (idle_not_mem_procRange _)
  have hne : (yieldSelected (stopMark k)).2 ≠ k.curr_proc := by
    intro he
    have hni : (yieldSelected (stopMark k)).2 ≠ IDLE := by rw [he]; exact hc
    have := (w4 hni).1
    rw [he, hls] at this
    exact absurd this (by decide)
  have hdisp : ((yieldDispatch (stopMark k)).1.deref k.curr_proc).state = .STOPPED := by
    rw [yieldDispatch_fst, deref_store_other _ _ _ _ hne, (f6 _).1, hls]
  refine ⟨hst, hms, ?_, hne, by rw [henq, hst], hdisp, ?_⟩
  · have hsent : sentBetween k (stop k) = ((k.deref k.curr_proc).father, Signal.SIGCHLD) ::
        ((procRange (stopMark k)).filter (alarmExpired (stopMark k))).map
          (fun i => (i, Signal.SIGALRM)) := by
      have hstop : stop k = yield (stopMark k) := rfl
      rw [hstop]
      apply sentBetween_append
      rw [y4, s4, hms]
      simp
    have hnil : ∀ l : List Nat, (l.map (fun i => (i, Signal.SIGALRM))).filter
        (fun s => decide (s.2 = Signal.SIGCHLD)) = [] := by
      intro l
      apply List.filter_eq_nil_iff.mpr
      intro a ha
      obtain ⟨i, _, hi⟩ := List.mem_map.mp ha
      rw [← hi]
      simp
    rw [hsent, List.filter_cons_of_pos (by simp), hnil]
  · have hstop : stop k = yield (stopMark k) := rfl
    rw [hstop, (y7 k.curr_proc).2.2]
    exact hdisp

/-- Witness of C7: slot 1 is running and calls `stop`; its father is slot 0. -/
theorem stop_spec_witness :
    tableAlarm.curr_proc ≠ IDLE ∧ tableAlarm.curr_proc < tableAlarm.proctab.length ∧
    ((stop tableAlarm).deref tableAlarm.curr_proc).state = .STOPPED :=
  ⟨by decide, by decide, (stop_spec tableAlarm (by decide) (by decide)).2.2.2.2.2.2⟩

/-- Witness of C6 as amended, the example of the spec: alarm 5 and ticks 6.  Slot 2 is sent
one SIGALRM, its alarm is cleared, and a second call at tick 7 sends it none. -/
theorem yield_alarm_sweep_witness :
    (FIRST_PROC ≤ 2 ∧ 2 < tableAlarm.proctab.length ∧ IS_VALID tableAlarm 2 = true ∧
      (tableAlarm.deref 2).alarm = 5 ∧ tableAlarm.ticks = 6) ∧
    (timesSent (sentBetween tableAlarm (yield tableAlarm)) 2 Signal.SIGALRM = 1 ∧
      ((yield tableAlarm).deref 2).alarm = 0 ∧
      timesSent (sentBetween (yield tableAlarm)
        (yield { yield tableAlarm with ticks := 7 })) 2 Signal.SIGALRM = 0) :=
  ⟨by decide,
    (yield_alarm_sweep tableAlarm 7).2.2.1 2 (by decide) (by decide) (by decide) (by decide)
      (by decide)⟩

/-! ## The priority range -/

/-- C10, the code at the failing input: slot 1 is at MAX_PRIORITY (priority 0);
the guard `0 + 5 > 0` of `increasePriority` holds, so the priority becomes -5,
which is outside [0, 80], instead of staying at 0. -/
theorem increasePriority_at_max_priority :
    (tableTwoAtMax.deref 1).priority = MAX_PRIORITY ∧
    ((increasePriority tableTwoAtMax 1).deref 1).priority = -5 ∧
    ¬ (MAX_PRIORITY ≤ ((increasePriority tableTwoAtMax 1).deref 1).priority) := by
  decide

/-- C1, the code at the failing input: every priority of the table lies in
[0, 80]; in one `yield` slot 1 is selected and slot 2, passed over at priority
0, is favored to -5, so the priorities no longer lie in [0, 80]. -/
theorem yield_leaves_priority_range :
    PrioritiesInRange tableTwoAtMax ∧
    ((runOps tableTwoAtMax [Op.yield]).deref 2).priority = -5 ∧
    ¬ PrioritiesInRange (runOps tableTwoAtMax [Op.yield]) := by
  decide

theorem decreasePriority_deref_self (k : Kernel) (p : Nat) (h : p < k.proctab.length) :
    (decreasePriority k p).deref p =
      if (k.deref p).priority - PRIORITY_MODIFIER < MIN_PRIORITY then
        { k.deref p with priority := (k.deref p).priority + PRIORITY_MODIFIER }
      else k.deref p := by
  unfold decreasePriority
  split
  · exact deref_store_same k p _ h
  · rfl

/-- C11, the code at the failing input: slot 1 is at MIN_PRIORITY (priority 80);
the guard `80 - 5 < 80` of `decreasePriority` holds, so the priority becomes 85,
which is outside [0, 80], instead of staying at 80. -/
theorem decreasePriority_at_min_priority :
    (tableAtMin.deref 1).priority = MIN_PRIORITY ∧
    ((decreasePriority tableAtMin 1).deref 1).priority = 85 ∧
    ¬ (((decreasePriority tableAtMin 1).deref 1).priority ≤ MIN_PRIORITY) := by
  decide

/-- C15: the aging guards do not clamp inside the documented range.  For a slot
of the table with priority `p`: when `p` is in [0, 80] both guards hold, so
`increasePriority` leaves `p - 5` and `decreasePriority` leaves `p + 5`; for any
`p`, `increasePriority` subtracts 5 if and only if `p > -5` and otherwise changes
nothing, and `decreasePriority` adds 5 if and only if `p < 85` and otherwise
changes nothing. -/
theorem aging_guards_never_clamp (k : Kernel) (proc : Nat) (h : proc < k.proctab.length) :
    ((MAX_PRIORITY ≤ (k.deref proc).priority ∧ (k.deref proc).priority ≤ MIN_PRIORITY) →
      (k.deref proc).priority + PRIORITY_MODIFIER > MAX_PRIORITY ∧
      (k.deref proc).priority - PRIORITY_MODIFIER < MIN_PRIORITY ∧
      ((increasePriority k proc).deref proc).priority = (k.deref proc).priority - 5 ∧
      ((decreasePriority k proc).deref proc).priority = (k.deref proc).priority + 5) ∧
    (((increasePriority k proc).deref proc).priority = (k.deref proc).priority - 5 ↔
      (k.deref proc).priority > -5) ∧
    (¬ (k.deref proc).priority > -5 → increasePriority k proc = k) ∧
    (((decreasePriority k proc).deref proc).priority = (k.deref proc).priority + 5 ↔
      (k.deref proc).priority < 85) ∧
    (¬ (k.deref proc).priority < 85 → decreasePriority k proc = k) := by
  have hi := increasePriority_deref_self k proc h
  have hd := decreasePriority_deref_self k proc h
  simp only [PRIORITY_MODIFIER, MAX_PRIORITY, MIN_PRIORITY] at hi hd ⊢
  refine ⟨?_, ?_, ?_, ?_, ?_⟩
  · intro hr
    have g1 : (k.deref proc).priority + 5 > 0 := by omega
    have g2 : (k.deref proc).priority - 5 < 80 := by omega
    refine ⟨g1, g2, ?_, ?_⟩
    · rw [hi, if_pos g1]
    · rw [hd, if_pos g2]
  · rw [hi]
    split
    · constructor
      · intro _; omega
      · intro _; rfl
    · constructor
      · intro hh; omega
      · intro hh; omega
  · intro hn
    unfold increasePriority
    simp only [PRIORITY_MODIFIER, MAX_PRIORITY]
    rw [if_neg (by omega)]
  · rw [hd]
    split
    · constructor
      · intro _; omega
      · intro _; rfl
    · constructor
      · intro hh; omega
      · intro hh; omega
  · intro hn
    unfold decreasePriority
    simp only [PRIORITY_MODIFIER, MIN_PRIORITY]
    rw [if_neg (by omega)]

/-- Witness of C15: slot 1 of the table with two slots at priority 0. -/
theorem aging_guards_never_clamp_witness :
    1 < tableTwoAtMax.proctab.length ∧
    (((increasePriority tableTwoAtMax 1).deref 1).priority =
        (tableTwoAtMax.deref 1).priority - 5 ↔ (tableTwoAtMax.deref 1).priority > -5) :=
  ⟨by decide, (aging_guards_never_clamp tableTwoAtMax 1 (by decide)).2.1⟩

/-! ## Records after the selection loop, at the dispatch point and after `yield` -/

theorem procRange_nil_of_empty (k : Kernel) (h : ¬ IDLE < k.proctab.length) :
    procRange k = [] := by
  apply List.eq_nil_iff_forall_not_mem.mpr
  intro i hi
  have := (mem_procRange k i).mp hi
  simp only [IDLE] at h
  omega

/-- Effect of the selection loop of `yield` on the records of the table. -/
theorem yieldSelected_table (k : Kernel) :
    (yieldSelected k).1.deref (yieldSelected k).2 =
      (yieldLoopStart k).deref (yieldSelected k).2 ∧
    (∀ i, i ≠ (yieldSelected k).2 →
      (i = IDLE ∨ (FIRST_PROC ≤ i ∧ i < k.proctab.length ∧
        ((yieldLoopStart k).deref i).state = .READY)) →
      (yieldSelected k).1.deref i = (increasePriority (yieldLoopStart k) i).deref i) ∧
    (∀ i, i ≠ IDLE →
      ¬ (FIRST_PROC ≤ i ∧ i < k.proctab.length ∧ ((yieldLoopStart k).deref i).state = .READY) →
      (yieldSelected k).1.deref i = (yieldLoopStart k).deref i) := by
  have s1 : (yieldLoopStart k).proctab.length = k.proctab.length := (yieldLoopStart_spec k).1
  have hmem : ∀ i, i ∈ procRange (yieldLoopStart k) ↔ FIRST_PROC ≤ i ∧ i < k.proctab.length := by
    intro i
    rw [mem_procRange, s1]
  by_cases h0 : IDLE < k.proctab.length
  · obtain ⟨_, t2, t3, t4, _⟩ := chooseLoop_table (procRange (yieldLoopStart k))
      (yieldLoopStart k) IDLE (yieldSelected k) rfl (procRange_nodup _)
      (idle_not_mem_procRange _) (procRange_bound _) (by rw [s1]; exact h0)
    refine ⟨t2, ?_, ?_⟩
    · intro i hi h
      apply t3 i hi
      rcases h with h | ⟨h1, h2, h3⟩
      · exact Or.inl h
      · exact Or.inr ⟨(hmem i).mpr ⟨h1, h2⟩, h3⟩
    · intro i hi h
      exact t4 i hi (fun hh => h ⟨((hmem i).mp hh.1).1, ((hmem i).mp hh.1).2, hh.2⟩)
  · have hnil : procRange (yieldLoopStart k) = [] :=
      procRange_nil_of_empty _ (by rw [s1]; exact h0)
    have hr : yieldSelected k = (yieldLoopStart k, IDLE) := by
      simp [yieldSelected, yieldChoose, hnil]
    rw [hr]
    refine ⟨rfl, ?_, fun _ _ _ => rfl⟩
    intro i hi h
    rcases h with h | ⟨h1, h2, _⟩
    · exact absurd h hi
    · simp only [IDLE, FIRST_PROC] at h0 h1
      omega

/-- Which slot the selection loop of `yield` ends with. -/
theorem yieldSelected_winner (k : Kernel) :
    ((yieldLoopStart k).deref (yieldSelected k).2).priority ≤
      ((yieldLoopStart k).deref IDLE).priority ∧
    (∀ i, FIRST_PROC ≤ i → i < k.proctab.length →
      ((yieldLoopStart k).deref i).state = .READY →
      ((yieldLoopStart k).deref (yieldSelected k).2).priority ≤
        ((yieldLoopStart k).deref i).priority) ∧
    ((yieldSelected k).2 ≠ IDLE →
      FIRST_PROC ≤ (yieldSelected k).2 ∧ (yieldSelected k).2 < k.proctab.length ∧
      ((yieldLoopStart k).deref (yieldSelected k).2).state = .READY ∧
      ((yieldLoopStart k).deref (yieldSelected k).2).priority <
        ((yieldLoopStart k).deref IDLE).priority ∧
      ∀ i, FIRST_PROC ≤ i → i < (yieldSelected k).2 →
        ((yieldLoopStart k).deref i).state = .READY →
        ((yieldLoopStart k).deref (yieldSelected k).2).priority <
          ((yieldLoopStart k).deref i).priority) := by
  have s1 : (yieldLoopStart k).proctab.length = k.proctab.length := (yieldLoopStart_spec k).1
  have hmem : ∀ i, i ∈ procRange (yieldLoopStart k) ↔ FIRST_PROC ≤ i ∧ i < k.proctab.length := by
    intro i
    rw [mem_procRange, s1]
  obtain ⟨h1, h2, h3, h4⟩ := chooseLoop_winner (procRange (yieldLoopStart k))
    (yieldLoopStart k) IDLE (yieldSelected k) rfl (procRange_pairwise _)
    (idle_not_mem_procRange _)
  refine ⟨h2, fun i hi1 hi2 hi3 => h3 i ((hmem i).mpr ⟨hi1, hi2⟩) hi3, ?_⟩
  intro hw
  obtain ⟨h41, h42, h43⟩ := h4 hw
  have hwm : FIRST_PROC ≤ (yieldSelected k).2 ∧ (yieldSelected k).2 < k.proctab.length := by
    rcases h1 with h | h
    · exact absurd h hw
    · exact (hmem _).mp h
  refine ⟨hwm.1, hwm.2, h41, h42, ?_⟩
  intro i hi1 hi2 hi3
  exact h43 i ((hmem i).mpr ⟨hi1, lt_trans hi2 hwm.2⟩) hi2 hi3

theorem yieldDispatch_snd (k : Kernel) : (yieldDispatch k).2 = (yieldSelected k).2 := rfl

/-- Records at the dispatch point of `yield`. -/
theorem yieldDispatch_deref (k : Kernel) :
    (IDLE < k.proctab.length →
      (yieldDispatch k).1.deref (yieldSelected k).2 =
        { (yieldLoopStart k).deref (yieldSelected k).2 with
          state := .RUNNING, counter := PROC_QUANTUM }) ∧
    (∀ q, q ≠ (yieldSelected k).2 →
      (yieldDispatch k).1.deref q = (yieldSelected k).1.deref q) := by
  obtain ⟨f1, _, _, _, f5, _⟩ := yieldSelected_frame k
  refine ⟨?_, ?_⟩
  · intro h0
    have hwb : (yieldSelected k).2 < (yieldSelected k).1.proctab.length := by
      rw [f1]
      rcases f5 with h | h
      · rw [h]; exact h0
      · exact h.2
    rw [yieldDispatch_fst, deref_store_same _ _ _ hwb, (yieldSelected_table k).1]
  · intro q hq
    rw [yieldDispatch_fst, deref_store_other _ _ _ _ (Ne.symm hq)]

theorem yield_unfold (k : Kernel) :
    yield k = decreasePriority (switch_to (yieldDispatch k).1 (yieldDispatch k).2)
      (yieldDispatch k).2 := rfl

theorem switch_to_deref (k : Kernel) (next q : Nat) : (switch_to k next).deref q = k.deref q := rfl

/-- Records after the whole of `yield`, from those at the dispatch point. -/
theorem yield_deref (k : Kernel) :
    (IDLE < k.proctab.length →
      (yield k).deref (yieldSelected k).2 =
        (decreasePriority (yieldDispatch k).1 (yieldSelected k).2).deref (yieldSelected k).2) ∧
    (∀ q, q ≠ (yieldSelected k).2 → (yield k).deref q = (yieldDispatch k).1.deref q) := by
  obtain ⟨f1, _, _, _, f5, _⟩ := yieldSelected_frame k
  obtain ⟨_, _, _, _, _, y6, _⟩ := yield_frame k
  refine ⟨?_, ?_⟩
  · intro h0
    have hwb : (yieldSelected k).2 < (yieldDispatch k).1.proctab.length := by
      rw [y6]
      rcases f5 with h | h
      · rw [h]; exact h0
      · exact h.2
    rw [yield_unfold, yieldDispatch_snd,
      decreasePriority_deref_self _ _ (by exact hwb),
      decreasePriority_deref_self _ _ hwb]
    simp only [switch_to_deref]
  · intro q hq
    rw [yield_unfold, yieldDispatch_snd, decreasePriority_deref_other _ _ _ (Ne.symm hq),
      switch_to_deref]

/-! ## Post-dispatch decay -/

/-- C14: post-dispatch decay.  With `d` the state at the dispatch point and `w`
the process dispatched, the rest of `yield` is `switch_to(w)` followed by one
`decreasePriority(w)`: the record of `w` is the one a single `decreasePriority`
produces from its record in `d`, every other record is as in `d`, and when the
priority of `w` at selection is `p` with `0 ≤ p ≤ 75`, it is `p + 5` once
`yield` has completed. -/
theorem yield_post_dispatch_decay (k d : Kernel) (w : Nat)
    (hd : yieldDispatch k = (d, w)) (hidle : IDLE < k.proctab.length) :
    yield k = decreasePriority (switch_to d w) w ∧
    (yield k).deref w = (decreasePriority d w).deref w ∧
    (∀ q, q ≠ w → (yield k).deref q = d.deref q) ∧
    (d.deref w).priority = ((yieldSelected k).1.deref w).priority ∧
    (∀ p : Int, (d.deref w).priority = p → 0 ≤ p → p ≤ 75 →
      ((yield k).deref w).priority = p + 5) := by
  have hw : (yieldSelected k).2 = w := congrArg Prod.snd hd
  have hd1 : (yieldDispatch k).1 = d := congrArg Prod.fst hd
  obtain ⟨y1, y2⟩ := yield_deref k
  obtain ⟨d1, _⟩ := yieldDispatch_deref k
  obtain ⟨_, _, _, _, _, y6, _⟩ := yield_frame k
  rw [hw, hd1] at y1 y2 d1
  rw [hd1] at y6
  have hwb : w < d.proctab.length := by
    rw [y6, ← hw]
    rcases (yieldSelected_frame k).2.2.2.2.1 with h | h
    · rw [h]; exact hidle
    · exact h.2
  refine ⟨?_, y1 hidle, y2, ?_, ?_⟩
  · rw [yield_unfold, hd]
  · rw [d1 hidle, ← hw, (yieldSelected_table k).1]
  · intro p hp h0 h75
    rw [y1 hidle, decreasePriority_deref_self d w hwb, hp]
    simp only [PRIORITY_MODIFIER, MIN_PRIORITY]
    rw [if_pos (by omega)]

/-- Witness of C14, the example of the spec: the dispatched priority-10 process
ends the call at priority 15. -/
theorem yield_post_dispatch_decay_witness :
    IDLE < tableLowFirst.proctab.length ∧
    ((yieldDispatch tableLowFirst).1.deref 1).priority = 10 ∧
    ((yield tableLowFirst).deref 1).priority = 10 + 5 :=
  ⟨by decide, by decide,
    (yield_post_dispatch_decay tableLowFirst (yieldDispatch tableLowFirst).1 1 (by decide)
      (by decide)).2.2.2.2 10 (by decide) (by decide) (by decide)⟩

/-! ## The priority of IDLE -/

/-- C13, counterexample: IDLE starts at MIN_PRIORITY (80); a READY process of
priority 10 is selected, IDLE is favored for having been passed over, and its
priority is 75 at the dispatch point and after the whole of `yield`. -/
theorem idle_priority_not_kept :
    (tableLowFirst.deref IDLE).priority = MIN_PRIORITY ∧
    ((yieldDispatch tableLowFirst).1.deref IDLE).priority = 75 ∧
    ((yield tableLowFirst).deref IDLE).priority = 75 := by
  decide

/-- C13, amended: for a table in which IDLE has priority MIN_PRIORITY (80), with
`d` the state at the dispatch point and `w` the process dispatched.  IDLE is
dispatched exactly when no READY slot of FIRST_PROC..LAST_PROC has a priority
below 80, and then its priority is still 80 at the dispatch point.  When another
process is dispatched, IDLE has been favored once: its priority is 75 at the
dispatch point and after the post-dispatch decay step. -/
theorem idle_priority_after_yield (k d : Kernel) (w : Nat)
    (hd : yieldDispatch k = (d, w)) (hidle : (k.deref IDLE).priority = MIN_PRIORITY) :
    (w = IDLE ↔ ∀ i, FIRST_PROC ≤ i → i < k.proctab.length →
      ((yieldLoopStart k).deref i).state = .READY →
      MIN_PRIORITY ≤ ((yieldLoopStart k).deref i).priority) ∧
    (w = IDLE → (d.deref IDLE).priority = MIN_PRIORITY) ∧
    (w ≠ IDLE → (d.deref IDLE).priority = 75 ∧ ((yield k).deref IDLE).priority = 75) := by
  have hw : (yieldSelected k).2 = w := congrArg Prod.snd hd
  have hd1 : (yieldDispatch k).1 = d := congrArg Prod.fst hd
  have h0 : IDLE < k.proctab.length := by
    by_contra hn
    have hdef : k.deref IDLE = default := by
      simp [Kernel.deref, List.getD_eq_getElem?_getD, List.getElem?_eq_none (not_lt.mp hn)]
    rw [hdef] at hidle
    revert hidle
    decide
  obtain ⟨_, _, _, _, s5, _, _⟩ := yieldLoopStart_spec k
  have hsi : ((yieldLoopStart k).deref IDLE).priority = MIN_PRIORITY := by
    rw [(s5 IDLE).2.1]; exact hidle
  obtain ⟨w1, w2, w3⟩ := yieldSelected_winner k
  obtain ⟨t1, t2, _⟩ := yieldSelected_table k
  obtain ⟨d1, d2⟩ := yieldDispatch_deref k
  obtain ⟨_, y2⟩ := yield_deref k
  rw [hw] at w1 w2 w3 t1 t2 d1 d2 y2
  rw [hd1] at d1 d2 y2
  rw [hsi] at w3
  refine ⟨?_, ?_, ?_⟩
  · constructor
    · intro he i hi1 hi2 hi3
      have := w2 i hi1 hi2 hi3
      rw [he, hsi] at this
      exact this
    · intro hall
      by_contra hne
      obtain ⟨a1, a2, a3, a4, _⟩ := w3 hne
      have := hall w a1 a2 a3
      omega
  · intro he
    rw [he] at d1
    rw [d1 h0]
    exact hsi
  · intro hne
    have hfav : (d.deref IDLE).priority = 75 := by
      rw [d2 IDLE (Ne.symm hne), t2 IDLE (Ne.symm hne) (Or.inl rfl),
        increasePriority_deref_self _ _ (by rw [(yieldLoopStart_spec k).1]; exact h0), hsi]
      rw [if_pos (by decide)]
      show MIN_PRIORITY - PRIORITY_MODIFIER = 75
      decide
    exact ⟨hfav, by rw [y2 IDLE (Ne.symm hne)]; exact hfav⟩

/-- Witness of C13 as amended, on the table with READY priorities 10 and 20. -/
theorem idle_priority_after_yield_witness :
    (tableLowFirst.deref IDLE).priority = MIN_PRIORITY ∧
    ((yield tableLowFirst).deref IDLE).priority = 75 :=
  ⟨by decide,
    ((idle_priority_after_yield tableLowFirst (yieldDispatch tableLowFirst).1 1 (by decide)
      (by decide)).2.2 (by decide)).2⟩

/-! ## Slots the selection loop skips -/

/-- The selection loop skips the slots that are not READY.  With `s` the state
in which the selection loop starts and `r` the state and winner when it
finishes: a slot of FIRST_PROC..LAST_PROC whose state in `s` is not READY is
not the winner and keeps its whole record. -/
theorem selection_skips_not_ready (k s : Kernel) (r : Kernel × Nat) (i : Nat)
    (hs : yieldLoopStart k = s) (hr : yieldSelected k = r)
    (hi : FIRST_PROC ≤ i) (hst : (s.deref i).state ≠ .READY) :
    r.2 ≠ i ∧ r.1.deref i = s.deref i ∧ (r.1.deref i).priority = (s.deref i).priority := by
  subst hs hr
  have hi0 : i ≠ IDLE := by
    simp only [FIRST_PROC, IDLE] at hi ⊢
    omega
  obtain ⟨_, _, w3⟩ := yieldSelected_winner k
  obtain ⟨_, _, t3⟩ := yieldSelected_table k
  have hrec := t3 i hi0 (fun hh => hst hh.2.2)
  refine ⟨?_, hrec, by rw [hrec]⟩
  intro he
  have := (w3 (by rw [he]; exact hi0)).2.2.1
  rw [he] at this
  exact hst this

/-- C18: a process other than IDLE and other than the current process whose
state is not READY when `yield` is entered keeps its state, priority, counter,
father and validity over a complete call to `yield`, and is not the process
dispatched; its alarm is either unchanged or cleared to 0 by the alarm sweep. -/
theorem yield_leaves_non_runnable (k : Kernel) (q : Nat)
    (hq : q ≠ IDLE) (hc : q ≠ k.curr_proc) (hst : (k.deref q).state ≠ .READY) :
    ((yield k).deref q).state = (k.deref q).state ∧
    ((yield k).deref q).priority = (k.deref q).priority ∧
    ((yield k).deref q).counter = (k.deref q).counter ∧
    ((yield k).deref q).father = (k.deref q).father ∧
    ((yield k).deref q).valid = (k.deref q).valid ∧
    (((yield k).deref q).alarm = (k.deref q).alarm ∨ ((yield k).deref q).alarm = 0) ∧
    (yield k).curr_proc ≠ q := by
  obtain ⟨_, _, _, _, _, _, e7, _⟩ := yieldEnqueue_spec k
  obtain ⟨_, _, _, _, s5, s6, s7⟩ := yieldLoopStart_spec k
  obtain ⟨_, _, w3⟩ := yieldSelected_winner k
  obtain ⟨_, _, t3⟩ := yieldSelected_table k
  obtain ⟨_, d2⟩ := yieldDispatch_deref k
  obtain ⟨_, y2⟩ := yield_deref k
  obtain ⟨_, yc, _⟩ := yield_frame k
  have hss : ((yieldLoopStart k).deref q).state = (k.deref q).state := by
    rw [(s5 q).1, e7 q hc]
  have hsc : ((yieldLoopStart k).deref q).counter = (k.deref q).counter := by
    rw [(s5 q).2.2.1, e7 q hc]
  have hnr : ((yieldLoopStart k).deref q).state ≠ .READY := by rw [hss]; exact hst
  have hne : q ≠ (yieldSelected k).2 := by
    intro he
    have := (w3 (by rw [← he]; exact hq)).2.2.1
    rw [← he] at this
    exact hnr this
  have hrec : (yield k).deref q = (yieldLoopStart k).deref q := by
    rw [y2 q hne, d2 q hne, t3 q hq (fun hh => hnr hh.2.2)]
  rw [hrec]
  refine ⟨hss, (s5 q).2.1, hsc, (s5 q).2.2.2.1, (s5 q).2.2.2.2, ?_, ?_⟩
  · by_cases hexp : q ∈ procRange k ∧ alarmExpired k q = true
    · exact Or.inr (s6 q hexp.1 hexp.2)
    · exact Or.inl (s7 q hexp)
  · rw [yc, yieldDispatch_snd]
    exact Ne.symm hne

/-- Witness of C18: the STOPPED slot 1 of the table where IDLE was running. -/
theorem yield_leaves_non_runnable_witness :
    (1 ≠ IDLE ∧ 1 ≠ tableNoneReady.curr_proc ∧ (tableNoneReady.deref 1).state ≠ .READY) ∧
    ((yield tableNoneReady).deref 1).state = (tableNoneReady.deref 1).state :=
  ⟨by decide,
    (yield_leaves_non_runnable tableNoneReady 1 (by decide) (by decide) (by decide)).1⟩

/-! ## The bound the code keeps: [-9, 89] -/

theorem within_iff_deref (lo hi : Int) (hlo : lo ≤ 0) (hhi : 0 ≤ hi) (k : Kernel) :
    PrioritiesWithin lo hi k ↔
      ∀ q, lo ≤ (k.deref q).priority ∧ (k.deref q).priority ≤ hi := by
  constructor
  · intro h q
    by_cases hq : q < k.proctab.length
    · exact h _ (deref_mem k q hq)
    · have hdef : k.deref q = default := by
        simp [Kernel.deref, List.getD_eq_getElem?_getD, List.getElem?_eq_none (not_lt.mp hq)]
      rw [hdef]
      exact ⟨hlo, hhi⟩
  · intro h v hv
    obtain ⟨i, hi, hiv⟩ := List.getElem_of_mem hv
    have hd : k.deref i = v := by
      simp [Kernel.deref, List.getD_eq_getElem?_getD, List.getElem?_eq_getElem hi, hiv]
    rw [← hd]
    exact h i

theorem store_within (k : Kernel) (p : Nat) (v : Process)
    (h : ∀ q, -9 ≤ (k.deref q).priority ∧ (k.deref q).priority ≤ 89)
    (hv : -9 ≤ v.priority ∧ v.priority ≤ 89) :
    ∀ q, -9 ≤ ((k.store p v).deref q).priority ∧ ((k.store p v).deref q).priority ≤ 89 := by
  intro q
  rw [deref_store]
  split
  · exact hv
  · exact h q

theorem increasePriority_within (k : Kernel) (p : Nat)
    (h : ∀ q, -9 ≤ (k.deref q).priority ∧ (k.deref q).priority ≤ 89) :
    ∀ q, -9 ≤ ((increasePriority k p).deref q).priority ∧
      ((increasePriority k p).deref q).priority ≤ 89 := by
  unfold increasePriority
  split
  · rename_i hg
    apply store_within k p _ h
    have := h p
    simp only [PRIORITY_MODIFIER, MAX_PRIORITY] at hg ⊢
    constructor <;> omega
  · exact h

theorem decreasePriority_within (k : Kernel) (p : Nat)
    (h : ∀ q, -9 ≤ (k.deref q).priority ∧ (k.deref q).priority ≤ 89) :
    ∀ q, -9 ≤ ((decreasePriority k p).deref q).priority ∧
      ((decreasePriority k p).deref q).priority ≤ 89 := by
  unfold decreasePriority
  split
  · rename_i hg
    apply store_within k p _ h
    have := h p
    simp only [PRIORITY_MODIFIER, MIN_PRIORITY] at hg ⊢
    constructor <;> omega
  · exact h

theorem chooseLoop_within (l : List Nat) : ∀ (c : Kernel × Nat),
    (∀ q, -9 ≤ (c.1.deref q).priority ∧ (c.1.deref q).priority ≤ 89) →
    ∀ q, -9 ≤ ((l.foldl chooseBody c).1.deref q).priority ∧
      ((l.foldl chooseBody c).1.deref q).priority ≤ 89 := by
  induction l with
  | nil => intro c h; exact h
  | cons p l ih =>
    intro c h
    rw [List.foldl_cons]
    apply ih
    unfold chooseBody
    split
    · exact h
    · split
      · exact increasePriority_within _ _ h
      · exact increasePriority_within _ _ h

theorem yield_within (k : Kernel)
    (h : ∀ q, -9 ≤ (k.deref q).priority ∧ (k.deref q).priority ≤ 89) :
    ∀ q, -9 ≤ ((yield k).deref q).priority ∧ ((yield k).deref q).priority ≤ 89 := by
  have hs : ∀ q, -9 ≤ ((yieldLoopStart k).deref q).priority ∧
      ((yieldLoopStart k).deref q).priority ≤ 89 := by
    intro q
    rw [((yieldLoopStart_spec k).2.2.2.2.1 q).2.1]
    exact h q
  have hsel : ∀ q, -9 ≤ ((yieldSelected k).1.deref q).priority ∧
      ((yieldSelected k).1.deref q).priority ≤ 89 :=
    chooseLoop_within (procRange (yieldLoopStart k)) (yieldLoopStart k, IDLE) hs
  have hd : ∀ q, -9 ≤ ((yieldDispatch k).1.deref q).priority ∧
      ((yieldDispatch k).1.deref q).priority ≤ 89 := by
    rw [yieldDispatch_fst]
    exact store_within _ _ _ hsel (hsel _)
  rw [yield_unfold]
  apply decreasePriority_within
  intro q
  rw [switch_to_deref]
  exact hd q

theorem sched_within (k : Kernel) (p : Nat)
    (h : ∀ q, -9 ≤ (k.deref q).priority ∧ (k.deref q).priority ≤ 89) :
    ∀ q, -9 ≤ ((sched k p).deref q).priority ∧ ((sched k p).deref q).priority ≤ 89 :=
  store_within k p _ h (h p)

theorem stop_within (k : Kernel)
    (h : ∀ q, -9 ≤ (k.deref q).priority ∧ (k.deref q).priority ≤ 89) :
    ∀ q, -9 ≤ ((stop k).deref q).priority ∧ ((stop k).deref q).priority ≤ 89 := by
  have hstop : stop k = yield (stopMark k) := rfl
  rw [hstop]
  apply yield_within
  intro q
  have hm : (stopMark k).deref q =
      (k.store k.curr_proc { k.deref k.curr_proc with state := .STOPPED }).deref q := rfl
  rw [hm]
  exact store_within k k.curr_proc { k.deref k.curr_proc with state := .STOPPED } h
    (h k.curr_proc) q

theorem runOps_within (ops : List Op) : ∀ (k : Kernel),
    (∀ q, -9 ≤ (k.deref q).priority ∧ (k.deref q).priority ≤ 89) →
    ∀ q, -9 ≤ ((runOps k ops).deref q).priority ∧ ((runOps k ops).deref q).priority ≤ 89 := by
  induction ops with
  | nil => intro k h; exact h
  | cons op ops ih =>
    intro k h
    have hcons : runOps k (op :: ops) = runOps (Op.run k op) ops := rfl
    rw [hcons]
    apply ih
    cases op with
    | sched proc => exact sched_within k proc h
    | resume proc =>
      show ∀ q, -9 ≤ ((resume k proc).deref q).priority ∧ ((resume k proc).deref q).priority ≤ 89
      unfold resume
      split
      · exact sched_within k proc h
      · exact h
    | stop => exact stop_within k h
    | yield => exact yield_within k h

/-- C17: the bound the code actually keeps.  The interval [-9, 89] is closed
under `increasePriority` and `decreasePriority`; hence from a table whose
priorities lie in [0, 80], after any finite sequence of `sched`, `resume`,
`stop` and `yield`, every priority lies in [-9, 89].  Both ends are attained
from inside [0, 80]: priority 1 becomes -9 by two `increasePriority` steps and
priority 79 becomes 89 by two `decreasePriority` steps. -/
theorem priorities_actual_bound (k : Kernel) (ops : List Op) (hk : PrioritiesInRange k) :
    PrioritiesWithin (-9) 89 (runOps k ops) ∧
    (∀ (k2 : Kernel) (proc : Nat), PrioritiesWithin (-9) 89 k2 →
      PrioritiesWithin (-9) 89 (increasePriority k2 proc) ∧
      PrioritiesWithin (-9) 89 (decreasePriority k2 proc)) ∧
    (PrioritiesInRange tableNearEnds ∧
      ((increasePriority (increasePriority tableNearEnds 1) 1).deref 1).priority = -9 ∧
      ((decreasePriority (decreasePriority tableNearEnds 2) 2).deref 2).priority = 89) := by
  have hiff := within_iff_deref (-9) 89 (by decide) (by decide)
  refine ⟨?_, ?_, by decide⟩
  · apply (hiff _).mpr
    apply runOps_within
    intro q
    by_cases hq : q < k.proctab.length
    · have := prioritiesInRange_deref k hk q hq
      constructor <;> omega
    · have hdef : k.deref q = default := by
        simp [Kernel.deref, List.getD_eq_getElem?_getD, List.getElem?_eq_none (not_lt.mp hq)]
      rw [hdef]
      decide
  · intro k2 proc h2
    exact ⟨(hiff _).mpr (increasePriority_within k2 proc ((hiff k2).mp h2)),
      (hiff _).mpr (decreasePriority_within k2 proc ((hiff k2).mp h2))⟩

/-- Witness of C17: the table with two slots at priority 0, after `yield`, `stop`
and `yield`. -/
theorem priorities_actual_bound_witness :
    PrioritiesInRange tableTwoAtMax ∧
    PrioritiesWithin (-9) 89 (runOps tableTwoAtMax [Op.yield, Op.stop, Op.yield]) :=
  ⟨by decide, (priorities_actual_bound tableTwoAtMax [Op.yield, Op.stop, Op.yield]
    (by decide)).1⟩

/-! ## Round-robin among processes of equal priority -/

theorem mem_readySlots (k : Kernel) (i : Nat) :
    i ∈ readySlots k ↔
      FIRST_PROC ≤ i ∧ i < k.proctab.length ∧ (k.deref i).state = .READY := by
  simp only [readySlots, List.mem_filter, mem_procRange, decide_eq_true_eq]
  tauto

theorem readySlots_pairwise (k : Kernel) : (readySlots k).Pairwise (· < ·) :=
  (procRange_pairwise k).filter _

theorem readySlots_congr (k k2 : Kernel) (hlen : k2.proctab.length = k.proctab.length)
    (hst : ∀ i, FIRST_PROC ≤ i → i < k.proctab.length →
      ((k2.deref i).state = .READY ↔ (k.deref i).state = .READY)) :
    readySlots k2 = readySlots k := by
  unfold readySlots
  rw [procRange_congr k k2 hlen]
  apply List.filter_congr
  intro i hi
  have hm := (mem_procRange k i).mp hi
  have := hst i hm.1 hm.2
  by_cases h : (k.deref i).state = .READY
  · simp [h, this.mpr h]
  · have h2 : ¬ (k2.deref i).state = .READY := fun hh => h (this.mp hh)
    simp [h, h2]

theorem increasePriority_priority (k : Kernel) (i : Nat) (h : i < k.proctab.length)
    (hg : -5 < (k.deref i).priority) :
    ((increasePriority k i).deref i).priority = (k.deref i).priority - 5 := by
  rw [increasePriority_deref_self k i h]
  simp only [PRIORITY_MODIFIER, MAX_PRIORITY]
  rw [if_pos (by omega)]

theorem decreasePriority_priority (k : Kernel) (i : Nat) (h : i < k.proctab.length)
    (hg : (k.deref i).priority < 85) :
    ((decreasePriority k i).deref i).priority = (k.deref i).priority + 5 := by
  rw [decreasePriority_deref_self k i h]
  simp only [PRIORITY_MODIFIER, MIN_PRIORITY]
  rw [if_pos (by omega)]

theorem yieldEnqueue_curr_running (k : Kernel) (hb : k.curr_proc < k.proctab.length)
    (hrun : (k.deref k.curr_proc).state = .RUNNING) :
    ((yieldEnqueue k).deref k.curr_proc).state = .READY := by
  have he : yieldEnqueue k = { sched k k.curr_proc with last_proc := k.curr_proc } := by
    simp [yieldEnqueue, hrun, sched, Kernel.store]
  have hd : (yieldEnqueue k).deref k.curr_proc = (sched k k.curr_proc).deref k.curr_proc := by
    rw [he]
    rfl
  rw [hd]
  unfold sched
  rw [deref_store_same k _ _ hb]

/-- Records after the whole of `yield`, from those at the start of the selection
loop. -/
theorem yield_records (k : Kernel) (h0 : IDLE < k.proctab.length) :
    ((yield k).deref (yieldSelected k).2).state = .RUNNING ∧
    (((yieldLoopStart k).deref (yieldSelected k).2).priority < 85 →
      ((yield k).deref (yieldSelected k).2).priority =
        ((yieldLoopStart k).deref (yieldSelected k).2).priority + 5) ∧
    (∀ q, q ≠ (yieldSelected k).2 →
      (q = IDLE ∨ (FIRST_PROC ≤ q ∧ q < k.proctab.length ∧
        ((yieldLoopStart k).deref q).state = .READY)) →
      (yield k).deref q = (increasePriority (yieldLoopStart k) q).deref q) ∧
    (∀ q, q ≠ (yieldSelected k).2 →
      ((yield k).deref q).state = ((yieldLoopStart k).deref q).state) := by
  obtain ⟨_, t2, _⟩ := yieldSelected_table k
  obtain ⟨d1, d2⟩ := yieldDispatch_deref k
  obtain ⟨y1, y2⟩ := yield_deref k
  obtain ⟨f1, _, _, _, f5, f6⟩ := yieldSelected_frame k
  obtain ⟨_, _, _, _, _, y6, _⟩ := yield_frame k
  have hwb : (yieldSelected k).2 < (yieldDispatch k).1.proctab.length := by
    rw [y6]
    rcases f5 with h | h
    · rw [h]; exact h0
    · exact h.2
  refine ⟨?_, ?_, ?_, ?_⟩
  · rw [y1 h0, (decreasePriority_fields _ _ _).1, d1 h0]
  · intro hg
    have hdp : ((yieldDispatch k).1.deref (yieldSelected k).2).priority =
        ((yieldLoopStart k).deref (yieldSelected k).2).priority := by rw [d1 h0]
    rw [y1 h0, decreasePriority_priority _ _ hwb (by rw [hdp]; exact hg), hdp]
  · intro q hq hpass
    rw [y2 q hq, d2 q hq, t2 q hq hpass]
  · intro q hq
    rw [y2 q hq, d2 q hq, (f6 q).1]

/-- One round: `A` are the READY processes already dispatched, `b :: B` those
still waiting; `yield` dispatches `b`. -/
theorem roundRobin_step (p : Int) (A B : List Nat) (b : Nat) (k : Kernel)
    (h0 : IDLE < k.proctab.length)
    (hL : readySlots (yieldEnqueue k) = A ++ b :: B)
    (hI : (k.deref IDLE).priority = 80 - 5 * (A.length : Int))
    (hA : ∀ i ∈ A, (k.deref i).priority = p + 10 - 5 * (A.length : Int))
    (hB : ∀ i ∈ b :: B, (k.deref i).priority = p - 5 * (A.length : Int))
    (hlo : 5 * (A.length : Int) ≤ p) (hhi : p < 80) :
    (yield k).curr_proc = b ∧
    IDLE < (yield k).proctab.length ∧
    readySlots (yieldEnqueue (yield k)) = (A ++ [b]) ++ B ∧
    ((yield k).deref IDLE).priority = 80 - 5 * ((A ++ [b]).length : Int) ∧
    (∀ i ∈ A ++ [b],
      ((yield k).deref i).priority = p + 10 - 5 * ((A ++ [b]).length : Int)) ∧
    (∀ i ∈ B, ((yield k).deref i).priority = p - 5 * ((A ++ [b]).length : Int)) := by
  obtain ⟨e1, _, _, _, _, _, _, _⟩ := yieldEnqueue_spec k
  obtain ⟨s1, _, _, _, s5, _, _⟩ := yieldLoopStart_spec k
  obtain ⟨_, w2, w3⟩ := yieldSelected_winner k
  obtain ⟨r1, r2, r3, r4⟩ := yield_records k h0
  obtain ⟨y1, yc, _⟩ := yield_frame k
  have hsp : ∀ q, ((yieldLoopStart k).deref q).priority = (k.deref q).priority :=
    fun q => (s5 q).2.1
  have hmemL : ∀ i, i ∈ A ++ b :: B ↔ FIRST_PROC ≤ i ∧ i < k.proctab.length ∧
      ((yieldLoopStart k).deref i).state = .READY := by
    intro i
    rw [← hL, mem_readySlots, e1, (s5 i).1]
  have hpw : (A ++ b :: B).Pairwise (· < ·) := hL ▸ readySlots_pairwise _
  obtain ⟨_, hpwB, hAB⟩ := List.pairwise_append.mp hpw
  have hbB : ∀ c ∈ B, b < c := (List.pairwise_cons.mp hpwB).1
  have hbm : b ∈ A ++ b :: B := List.mem_append_right _ (List.mem_cons_self _ _)
  obtain ⟨hb1, hb2, hb3⟩ := (hmemL b).mp hbm
  have hbp : ((yieldLoopStart k).deref b).priority = p - 5 * (A.length : Int) := by
    rw [hsp]; exact hB b (List.mem_cons_self _ _)
  have hIp : ((yieldLoopStart k).deref IDLE).priority = 80 - 5 * (A.length : Int) := by
    rw [hsp]; exact hI
  have hwne : (yieldSelected k).2 ≠ IDLE := by
    intro he
    have := w2 b hb1 hb2 hb3
    rw [he, hIp, hbp] at this
    omega
  obtain ⟨a1, a2, a3, _, a5⟩ := w3 hwne
  have hwL : (yieldSelected k).2 ∈ A ++ b :: B := (hmemL _).mpr ⟨a1, a2, a3⟩
  have hwb : (yieldSelected k).2 = b := by
    rcases List.mem_append.mp hwL with h | h
    · exfalso
      have hle := w2 b hb1 hb2 hb3
      rw [hsp, hA _ h, hbp] at hle
      omega
    · rcases List.mem_cons.mp h with h | h
      · exact h
      · exfalso
        have hlt := a5 b hb1 (hbB _ h) hb3
        rw [hsp, hB _ (List.mem_cons_of_mem _ h), hbp] at hlt
        omega
  rw [hwb] at r1 r2 r3 r4
  have hb0 : IDLE ≠ b := by
    simp only [FIRST_PROC, IDLE] at hb1 ⊢
    omega
  have hslen : ∀ i, i < k.proctab.length → i < (yieldLoopStart k).proctab.length :=
    fun i hi => by rw [s1]; exact hi
  have hlenA : ((A ++ [b]).length : Int) = (A.length : Int) + 1 := by
    simp
  have hc : (yield k).curr_proc = b := by rw [yc, yieldDispatch_snd]; exact hwb
  refine ⟨hc, by rw [y1]; exact h0, ?_, ?_, ?_, ?_⟩
  · obtain ⟨g1, _, _, _, _, _, g7, _⟩ := yieldEnqueue_spec (yield k)
    rw [List.append_assoc, List.singleton_append, ← hL]
    apply readySlots_congr (yieldEnqueue k) (yieldEnqueue (yield k))
      (by rw [g1, y1, e1])
    intro i _ _
    by_cases hib : i = b
    · have hrun := yieldEnqueue_curr_running (yield k) (by rw [hc, y1]; exact hb2)
        (by rw [hc]; exact r1)
      rw [hc] at hrun
      rw [hib]
      exact ⟨fun _ => by rw [← (s5 b).1]; exact hb3, fun _ => hrun⟩
    · rw [g7 i (by rw [hc]; exact hib), r4 i hib, (s5 i).1]
  · rw [r3 IDLE hb0 (Or.inl rfl),
      increasePriority_priority _ IDLE (hslen _ h0) (by rw [hIp]; omega), hIp, hlenA]
    omega
  · intro i hi
    rcases List.mem_append.mp hi with h | h
    · have hib : i ≠ b := by
        have := hAB i h b (List.mem_cons_self _ _)
        omega
      obtain ⟨hi1, hi2, hi3⟩ := (hmemL i).mp (List.mem_append_left _ h)
      have hip : ((yieldLoopStart k).deref i).priority = p + 10 - 5 * (A.length : Int) := by
        rw [hsp]; exact hA i h
      rw [r3 i hib (Or.inr ⟨hi1, hi2, hi3⟩),
        increasePriority_priority _ i (hslen _ hi2) (by rw [hip]; omega), hip, hlenA]
      omega
    · rw [List.mem_singleton.mp h, r2 (by rw [hbp]; omega), hbp, hlenA]
      omega
  · intro i hi
    have hib : i ≠ b := by
      have := hbB i hi
      omega
    obtain ⟨hi1, hi2, hi3⟩ := (hmemL i).mp
      (List.mem_append_right _ (List.mem_cons_of_mem _ hi))
    have hip : ((yieldLoopStart k).deref i).priority = p - 5 * (A.length : Int) := by
      rw [hsp]; exact hB i (List.mem_cons_of_mem _ hi)
    rw [r3 i hib (Or.inr ⟨hi1, hi2, hi3⟩),
      increasePriority_priority _ i (hslen _ hi2) (by rw [hip]; omega), hip, hlenA]
    omega

/-- The rounds still to run dispatch the waiting processes `B` in order. -/
theorem roundRobin_trace (p : Int) (B : List Nat) : ∀ (A : List Nat) (k : Kernel),
    IDLE < k.proctab.length →
    readySlots (yieldEnqueue k) = A ++ B →
    (k.deref IDLE).priority = 80 - 5 * (A.length : Int) →
    (∀ i ∈ A, (k.deref i).priority = p + 10 - 5 * (A.length : Int)) →
    (∀ i ∈ B, (k.deref i).priority = p - 5 * (A.length : Int)) →
    5 * ((A.length : Int) + (B.length : Int) - 1) ≤ p → p < 80 →
    dispatchTrace k B.length = B := by
  induction B with
  | nil => intro A k _ _ _ _ _ _ _; rfl
  | cons b B ih =>
    intro A k h0 hL hI hA hB hlo hhi
    have hlenB : ((b :: B).length : Int) = (B.length : Int) + 1 := by simp
    rw [hlenB] at hlo
    obtain ⟨c1, c2, c3, c4, c5, c6⟩ :=
      roundRobin_step p A B b k h0 hL hI hA hB (by omega) hhi
    have hlenA : ((A ++ [b]).length : Int) = (A.length : Int) + 1 := by simp
    have htr : dispatchTrace k (b :: B).length =
        (yield k).curr_proc :: dispatchTrace (yield k) B.length := rfl
    rw [htr, c1, ih (A ++ [b]) (yield k) c2 c3 c4 c5 c6 (by rw [hlenA]; omega) hhi]

/-- C12, counterexample.  One READY process of priority 80: it does not beat
IDLE (strict `<` against 80) and the single call dispatches IDLE.  Four READY
processes of priority 0: the fourth call dispatches slot 1 again and slot 4 is
never dispatched. -/
theorem round_robin_fails :
    (readySlots (yieldEnqueue (tableEqual 1 80)) = [1] ∧
      dispatchTrace (tableEqual 1 80) 1 = [IDLE]) ∧
    (readySlots (yieldEnqueue (tableEqual 4 0)) = [1, 2, 3, 4] ∧
      dispatchTrace (tableEqual 4 0) 4 = [1, 2, 3, 1]) := by
  decide

/-- C12, amended: round-robin under equal priority.  Let the slots of
FIRST_PROC..LAST_PROC that are READY once the current process has been
re-enqueued be `N` processes, all of priority `p`, with IDLE at priority 80
and `5 * (N - 1) ≤ p < 80`.  Then `N` consecutive calls to `yield` dispatch
exactly these processes, in increasing slot order, each exactly once. -/
theorem round_robin_equal_priority (k : Kernel) (N : Nat) (p : Int)
    (hN : (readySlots (yieldEnqueue k)).length = N)
    (hp : ∀ i ∈ readySlots (yieldEnqueue k), (k.deref i).priority = p)
    (hidle : (k.deref IDLE).priority = MIN_PRIORITY)
    (hlo : 5 * ((N : Int) - 1) ≤ p) (hhi : p < MIN_PRIORITY) :
    dispatchTrace k N = readySlots (yieldEnqueue k) ∧
    (dispatchTrace k N).Pairwise (· < ·) ∧
    (dispatchTrace k N).Nodup ∧
    (∀ i, i ∈ dispatchTrace k N ↔ FIRST_PROC ≤ i ∧ i < k.proctab.length ∧
      ((yieldEnqueue k).deref i).state = .READY) := by
  have h0 : IDLE < k.proctab.length := by
    by_contra hn
    have hdef : k.deref IDLE = default := by
      simp [Kernel.deref, List.getD_eq_getElem?_getD, List.getElem?_eq_none (not_lt.mp hn)]
    rw [hdef] at hidle
    revert hidle
    decide
  simp only [MIN_PRIORITY] at hidle hhi
  have htr : dispatchTrace k N = readySlots (yieldEnqueue k) := by
    rw [← hN]
    apply roundRobin_trace p (readySlots (yieldEnqueue k)) [] k h0 rfl
    · rw [hidle]; simp
    · intro i hi; cases hi
    · intro i hi; rw [hp i hi]; simp
    · rw [hN]; simp only [List.length_nil]; push_cast; omega
    · exact hhi
  have hpw := readySlots_pairwise (yieldEnqueue k)
  refine ⟨htr, by rw [htr]; exact hpw, ?_, ?_⟩
  · rw [htr]
    exact hpw.imp (fun h => Nat.ne_of_lt h)
  · intro i
    rw [htr, mem_readySlots, (yieldEnqueue_spec k).1]

/-- Witness of C12 as amended: three READY processes of priority 10. -/
theorem round_robin_equal_priority_witness :
    ((readySlots (yieldEnqueue (tableEqual 3 10))).length = 3 ∧
      (∀ i ∈ readySlots (yieldEnqueue (tableEqual 3 10)),
        ((tableEqual 3 10).deref i).priority = 10) ∧
      ((tableEqual 3 10).deref IDLE).priority = MIN_PRIORITY) ∧
    dispatchTrace (tableEqual 3 10) 3 = [1, 2, 3] :=
  ⟨by decide,
    (round_robin_equal_priority (tableEqual 3 10) 3 10 (by decide) (by decide) (by decide)
      (by decide) (by decide)).1.trans (by decide)⟩

end Nanvix
